import Mathlib

/-!
# idlvideo: handle validation and frame transfer

A shallow embedding of `src/lib/idlvideo.c`.

* `idlvideo__capture` is the handle check done before every operation.
* `idlvideo_read` pulls one frame and copies it into a fresh IDL byte array in
  one of three layouts.  The copy is embedded as the pointer walk the C code
  performs: the locals `image` and `buffer` are byte offsets (in `Int`, since
  they do step before the start of their arrays), every byte access is bounds
  checked against the array it goes to, and every access is logged.

Routines of the IDL runtime, of OpenCV and of libc are not part of the
repository; each one is embedded as documented and marked as such.
-/

namespace IdlVideo

/-! ## Machine-level values -/

/-- One unsigned byte, the C type `UCHAR`. -/
abbrev UCHAR := Fin 256

/-- Conversion `(UCHAR) v` of an unsigned value: keeps the low 8 bits. -/
def toUCHAR (v : Nat) : UCHAR := ⟨v % 256, Nat.mod_lt v (by decide)⟩

/-- Value of a C `int` expression whose mathematical value is `z`
(32 bits, two's complement). -/
def wrapInt (z : Int) : Int := (z + 2147483648) % 4294967296 - 2147483648

/-- Value of a C `unsigned int` expression whose mathematical value is `n`. -/
def wrapUInt (n : Nat) : Nat := n % 4294967296

/-- What a call into the library can end with. -/
inductive Outcome (α : Type) where
  /-- normal return -/
  | ok (a : α)
  /-- `IDL_Message(IDL_M_NAMED_GENERIC, IDL_MSG_LONGJMP, text)` issued by this library -/
  | message (text : String)
  /-- an error raised inside a routine of the IDL runtime -/
  | hostError
  /-- an access through a null pointer or outside an array -/
  | fault
  deriving DecidableEq

/-! ## Handles -/

/-- The structure name given to every handle (`#define IDLVIDEO`). -/
def IDLVIDEO : String := "idlvideo_capture"

/-- An IDL structure definition: the structure name and, for each tag, its
name and the byte offset of its data. -/
structure IDL_StructDef where
  name : String
  tags : List (String × Nat)

/-- An IDL variable as seen through an `IDL_VPTR`: a scalar, or a structure
with its definition, the address `value.s.arr->data` of its data area, and the
64-bit words that can be read from memory (`none`: not readable). -/
inductive IDL_Variable where
  | scalar (value : Int)
  | struct (sdef : IDL_StructDef) (data : Nat) (mem : Nat → Option Nat)

/-- IDL runtime routine `IDL_StructTagInfoByName(sdef, name, IDL_MSG_LONGJMP, NULL)`:
the data offset of the named tag; no such tag is an error of the runtime. -/
def IDL_StructTagInfoByName (sdef : IDL_StructDef) (name : String) : Option Nat :=
  (sdef.tags.find? (fun t => t.1 == name)).map (fun t => t.2)

/-- `idlvideo__capture` (idlvideo.c:52-77): obtain the capture pointer from a
handle structure. -/
def idlvideo__capture (s : IDL_Variable) : Outcome Nat :=
  match s with
  -- IDL_ENSURE_STRUCTURE(s)
  | .scalar _ => .hostError
  | .struct sdef data mem =>
    -- IDL_StructTagNameByIndex(sdef, 1, IDL_MSG_LONGJMP, &s_name)
    if sdef.tags.length ≤ 1 then .hostError
    -- if (strcmp(s_name, IDLVIDEO))
    else if sdef.name ≠ IDLVIDEO then .message "Not a valid camera."
    else
      match IDL_StructTagInfoByName sdef "CAPTURE" with
      | none => .hostError
      | some off =>
        let addr := data + off
        -- if (addr == NULL)
        if addr = 0 then .message "Could not access camera data."
        else
          -- return (CvCapture *) *addr
          match mem addr with
          | none => .fault
          | some capture => .ok capture

/-! ## Frames and the transfer machine -/

/-- The fields of OpenCV's `IplImage` that `idlvideo_read` uses.  The four
numbers are `int` fields of the C structure and are never negative in an image
header; `imageData` holds the pixel data, whose size in bytes the header keeps
in the `int` field `imageSize`. -/
structure IplImage where
  nChannels : Nat
  width : Nat
  height : Nat
  widthStep : Nat
  imageData : List UCHAR

/-- Locals and memory of the transfer: `image` and `buffer` are the two
pointers of the C code, as byte offsets from the start of the output array and
of `frame->imageData`; `out` is the output array; `reads` and `writes` log the
offsets of the source bytes read and of the output bytes written. -/
structure Mach where
  image : Int
  buffer : Int
  out : List UCHAR
  reads : List Int
  writes : List Int

/-- Read the source byte at offset `p`. -/
def load (src : List UCHAR) (m : Mach) (p : Int) : Option (UCHAR × Mach) :=
  if 0 ≤ p then
    match src[p.toNat]? with
    | some v => some (v, { m with reads := m.reads ++ [p] })
    | none => none
  else none

/-- Write `v` to the output byte at offset `p`. -/
def store (m : Mach) (p : Int) (v : UCHAR) : Option Mach :=
  if 0 ≤ p ∧ p.toNat < m.out.length then
    some { m with out := m.out.set p.toNat v, writes := m.writes ++ [p] }
  else none

/-- A C loop `for (k = 0; k < n; k++) body` whose body does not use `k`. -/
def loopN : Nat → (Mach → Option Mach) → Mach → Option Mach
  | 0, _, m => some m
  | n + 1, body, m => (body m).bind (loopN n body)

/-- libc `memcpy(d, s, n)`: copies `n` bytes, lowest address first. -/
def memcpy (src : List UCHAR) : Nat → Int → Int → Mach → Option Mach
  | 0, _, _, m => some m
  | n + 1, d, s, m => do
    let (v, m) ← load src m s
    let m ← store m d v
    memcpy src n (d + 1) (s + 1) m

/-- IDL runtime routine `IDL_MakeTempArray(IDL_TYP_BYTE, n, dims, IDL_ARR_INI_NOP, _)`:
a byte array of `dims[0] * ... * dims[n-1]` elements that is not initialised;
`ini` gives whatever the memory holds. -/
def IDL_MakeTempArray (dims : List Nat) (ini : Nat → UCHAR) : List UCHAR :=
  (List.range dims.prod).map ini

/-- Body of the row loop for a native grayscale image (idlvideo.c:168-170). -/
def copyRow (frame : IplImage) (m : Mach) : Option Mach := do
  let m ← memcpy frame.imageData frame.width m.image m.buffer m
  let m := { m with image := m.image - frame.width }
  pure { m with buffer := m.buffer + frame.widthStep }

/-- The luminance `value` of idlvideo.c:183, an `unsigned int`. -/
def lumaValue (r g b : Nat) : Nat := wrapUInt ((r * 77) + (g * 151) + (b * 28))

/-- The byte stored at idlvideo.c:184. -/
def lumaByte (r g b : UCHAR) : UCHAR := toUCHAR (lumaValue r.val g.val b.val >>> 8)

/-- Body of the pixel loop of the BGR to gray conversion (idlvideo.c:180-184). -/
def grayPixel (src : List UCHAR) (m : Mach) : Option Mach := do
  let (b, m) ← load src m m.buffer
  let m := { m with buffer := m.buffer + 1 }
  let (g, m) ← load src m m.buffer
  let m := { m with buffer := m.buffer + 1 }
  let (r, m) ← load src m m.buffer
  let m := { m with buffer := m.buffer + 1 }
  let m ← store m m.image (lumaByte r g b)
  pure { m with image := m.image + 1 }

/-- The step back at the end of a row (idlvideo.c:186 and 202):
`buffer -= frame->widthStep + frame->nChannels*frame->width`. -/
def rewind (frame : IplImage) (m : Mach) : Mach :=
  { m with buffer := m.buffer -
      wrapInt (frame.widthStep + wrapInt (frame.nChannels * frame.width)) }

/-- Body of the row loop of the BGR to gray conversion (idlvideo.c:179-186). -/
def grayRow (frame : IplImage) (m : Mach) : Option Mach := do
  let m ← loopN frame.width (grayPixel frame.imageData) m
  pure (rewind frame m)

/-- Body of the pixel loop of the BGR to RGB conversion (idlvideo.c:197-200). -/
def colourPixel (src : List UCHAR) (m : Mach) : Option Mach := do
  let (r, m) ← load src m (m.buffer + 2)
  let m ← store m m.image r
  let m := { m with image := m.image + 1 }
  let (g, m) ← load src m (m.buffer + 1)
  let m ← store m m.image g
  let m := { m with image := m.image + 1 }
  let (b, m) ← load src m m.buffer
  let m ← store m m.image b
  let m := { m with image := m.image + 1 }
  pure { m with buffer := m.buffer + 3 }

/-- Body of the row loop of the BGR to RGB conversion (idlvideo.c:196-202). -/
def colourRow (frame : IplImage) (m : Mach) : Option Mach := do
  let m ← loopN frame.width (colourPixel frame.imageData) m
  pure (rewind frame m)

/-- The machine right after `IDL_MakeTempArray`: both pointers at the start of
their arrays, nothing accessed yet. -/
def start (dims : List Nat) (ini : Nat → UCHAR) : Mach :=
  { image := 0, buffer := 0, out := IDL_MakeTempArray dims ini, reads := [], writes := [] }

/-- The transfer of `idlvideo_read` (idlvideo.c:160-206) for a frame that was
obtained: the dimensions of the array that is returned and the final machine,
or `none` when some access leaves its array. -/
def idlvideo_read_transfer (frame : IplImage) (gray : Int) (ini : Nat → UCHAR) :
    Option (List Nat × Mach) :=
  if frame.nChannels = 1 then
    let dims := [frame.width, frame.height]
    let m := start dims ini
    let m := { m with image := m.image + wrapInt (wrapInt (frame.height - 1) * frame.width) }
    (loopN frame.height (copyRow frame) m).map (fun m => (dims, m))
  else if gray ≠ 0 then
    let dims := [frame.width, frame.height]
    let m := start dims ini
    let m := { m with buffer := m.buffer + wrapInt (wrapInt (frame.height - 1) * frame.widthStep) }
    (loopN frame.height (grayRow frame) m).map (fun m => (dims, m))
  else
    let dims := [frame.nChannels, frame.width, frame.height]
    let m := start dims ini
    let m := { m with buffer := m.buffer + wrapInt (wrapInt (frame.height - 1) * frame.widthStep) }
    (loopN frame.height (colourRow frame) m).map (fun m => (dims, m))

/-- The IDL array handed back to the caller. -/
structure IDL_Array where
  dims : List Nat
  data : List UCHAR
  deriving DecidableEq

/-- `idlvideo_read` (idlvideo.c:145-207).  `argv1` is the optional second
argument, already converted by `IDL_LongScalar`; `cvQueryFrame` is OpenCV's
frame pull, which gives `none` for a null `IplImage *`. -/
def idlvideo_read (argv0 : IDL_Variable) (argv1 : Option Int)
    (cvQueryFrame : Nat → Option IplImage) (ini : Nat → UCHAR) : Outcome IDL_Array :=
  match idlvideo__capture argv0 with
  | .message text => .message text
  | .hostError => .hostError
  | .fault => .fault
  | .ok capture =>
    -- gray = (argc == 2) ? IDL_LongScalar(argv[1]) : 0
    let gray : Int := match argv1 with
      | some v => v
      | none => 0
    match cvQueryFrame capture with
    -- buffer = (UCHAR *) frame->imageData, with no test of `frame`
    | none => .fault
    | some frame =>
      match idlvideo_read_transfer frame gray ini with
      | none => .fault
      | some (dims, m) => .ok { dims := dims, data := m.out }



/-! ## Summaries of a run segment -/

/-- Between `m` and `m'` the output kept its size, changed at most at the
offsets `lo ≤ k < hi`, and each of those offsets was written exactly once
more (no other offset was written). -/
def WroteOnce (m m' : Mach) (lo hi : Nat) : Prop :=
  m'.out.length = m.out.length ∧
  (∀ k : Nat, k < lo ∨ hi ≤ k → m'.out[k]? = m.out[k]?) ∧
  (∀ z : Int, m'.writes.count z =
    m.writes.count z + if (lo : Int) ≤ z ∧ z < (hi : Int) then 1 else 0)

/-- Every source offset read between `m` and `m'` lies in `lo ≤ z < hi`. -/
def ReadWithin (m m' : Mach) (lo hi : Nat) : Prop :=
  ∀ z : Int, z ∈ m'.reads → z ∈ m.reads ∨ ((lo : Int) ≤ z ∧ z < (hi : Int))

/-! ## Single steps -/

theorem load_at (src : List UCHAR) (m : Mach) (p : Int) (q : Nat) (v : UCHAR)
    (hp : p = (q : Int)) (hv : src[q]? = some v) :
    load src m p = some (v, { m with reads := m.reads ++ [p] }) := by
  subst hp
  simp [load, hv]

theorem store_at (m : Mach) (p : Int) (k : Nat) (v : UCHAR)
    (hp : p = (k : Int)) (hk : k < m.out.length) :
    store m p v = some { m with out := m.out.set k v, writes := m.writes ++ [p] } := by
  subst hp
  simp [store, hk]

theorem grayPixel_eq (src : List UCHAR) (m : Mach) (p q : Nat) (b g r : UCHAR)
    (hi : m.image = (p : Int)) (hb : m.buffer = (q : Int))
    (h0 : src[q]? = some b) (h1 : src[q + 1]? = some g) (h2 : src[q + 2]? = some r)
    (hp : p < m.out.length) :
    grayPixel src m = some
      { image := ((p + 1 : Nat) : Int), buffer := ((q + 3 : Nat) : Int),
        out := m.out.set p (lumaByte r g b),
        reads := m.reads ++ [(q : Int), ((q + 1 : Nat) : Int), ((q + 2 : Nat) : Int)],
        writes := m.writes ++ [(p : Int)] } := by
  obtain ⟨im, bu, out, rd, wr⟩ := m
  simp only at hi hb hp
  subst hi hb
  unfold grayPixel
  simp only []
  rw [load_at src _ _ q b rfl h0]
  simp only [Option.bind_eq_bind, Option.some_bind, bind, pure]
  rw [load_at src _ _ (q + 1) g (by push_cast; rfl) h1]
  simp only [Option.bind_eq_bind, Option.some_bind, bind, pure]
  rw [load_at src _ _ (q + 2) r (by push_cast; ring) h2]
  simp only [Option.bind_eq_bind, Option.some_bind, bind, pure]
  rw [store_at _ _ p _ rfl hp]
  simp only [Option.bind_eq_bind, Option.some_bind, bind, pure]
  simp [Mach.mk.injEq]
  omega

theorem exists_byte (l : List UCHAR) (i : Nat) (h : i < l.length) :
    ∃ v, l[i]? = some v :=
  ⟨l[i], List.getElem?_eq_getElem h⟩

theorem count_snoc (l : List Int) (p z : Int) :
    (l ++ [p]).count z = l.count z + if p = z then 1 else 0 := by
  rw [List.count_append, List.count_singleton]
  simp

theorem wroteOnce_refl (m : Mach) (p : Nat) : WroteOnce m m p p := by
  refine ⟨rfl, fun _ _ => rfl, fun z => ?_⟩
  have : ¬ ((p : Int) ≤ z ∧ z < (p : Int)) := by omega
  simp [this]

/-- Two segments that wrote adjacent intervals, in either order. -/
theorem wroteOnce_glue {m m1 m2 : Mach} {a b c d lo hi : Nat}
    (h1 : WroteOnce m m1 a b) (h2 : WroteOnce m1 m2 c d)
    (hab : a ≤ b) (hcd : c ≤ d)
    (hadj : (b = c ∧ lo = a ∧ hi = d) ∨ (d = a ∧ lo = c ∧ hi = b)) :
    WroteOnce m m2 lo hi := by
  obtain ⟨l1, f1, c1⟩ := h1
  obtain ⟨l2, f2, c2⟩ := h2
  refine ⟨l2.trans l1, fun k hk => ?_, fun z => ?_⟩
  · rw [f2 k (by omega), f1 k (by omega)]
  · rw [c2 z, c1 z]
    split_ifs <;> omega

theorem readWithin_refl (m : Mach) (lo hi : Nat) : ReadWithin m m lo hi :=
  fun _ hz => Or.inl hz

theorem readWithin_glue {m m1 m2 : Mach} {a b c d lo hi : Nat}
    (h1 : ReadWithin m m1 a b) (h2 : ReadWithin m1 m2 c d)
    (hlo : lo ≤ a ∧ lo ≤ c) (hhi : b ≤ hi ∧ d ≤ hi) :
    ReadWithin m m2 lo hi := by
  intro z hz
  rcases h2 z hz with h | h
  · rcases h1 z h with h' | h'
    · exact Or.inl h'
    · exact Or.inr (by omega)
  · exact Or.inr (by omega)

theorem loopN_succ (n : Nat) (body : Mach → Option Mach) (m m1 : Mach)
    (h : body m = some m1) : loopN (n + 1) body m = loopN n body m1 := by
  simp [loopN, h]

/-! ## The pixel loop of the gray conversion -/

theorem grayPixels_run (src : List UCHAR) : ∀ (n : Nat) (m : Mach) (p q : Nat),
    m.image = (p : Int) → m.buffer = (q : Int) →
    q + 3 * n ≤ src.length → p + n ≤ m.out.length →
    ∃ m', loopN n (grayPixel src) m = some m' ∧
      m'.image = (p : Int) + n ∧ m'.buffer = (q : Int) + 3 * n ∧
      WroteOnce m m' p (p + n) ∧ ReadWithin m m' q (q + 3 * n) ∧
      ∀ j k a : Nat, j < n → k = p + j → a = q + 3 * j →
        ∃ b g r, src[a]? = some b ∧ src[a + 1]? = some g ∧ src[a + 2]? = some r ∧
          m'.out[k]? = some (lumaByte r g b) := by
  intro n
  induction n with
  | zero =>
    intro m p q hi hb _ _
    exact ⟨m, rfl, by simpa using hi, by simpa using hb, wroteOnce_refl m p,
      readWithin_refl m _ _, fun j k a hj => absurd hj (Nat.not_lt_zero j)⟩
  | succ n ih =>
    intro m p q hi hb hsrc hout
    obtain ⟨b, h0⟩ := exists_byte src q (by omega)
    obtain ⟨g, h1⟩ := exists_byte src (q + 1) (by omega)
    obtain ⟨r, h2⟩ := exists_byte src (q + 2) (by omega)
    have hp : p < m.out.length := by omega
    have hstep := grayPixel_eq src m p q b g r hi hb h0 h1 h2 hp
    obtain ⟨m', hrun, hi', hb', hw, hr, hv⟩ :=
      ih { image := ((p + 1 : Nat) : Int), buffer := ((q + 3 : Nat) : Int),
           out := m.out.set p (lumaByte r g b),
           reads := m.reads ++ [(q : Int), ((q + 1 : Nat) : Int), ((q + 2 : Nat) : Int)],
           writes := m.writes ++ [(p : Int)] }
        (p + 1) (q + 3) rfl rfl (by omega) (by simp only [List.length_set]; omega)
    refine ⟨m', ?_, ?_, ?_, ?_, ?_, ?_⟩
    · rw [loopN_succ n _ m _ hstep]; exact hrun
    · rw [hi']; push_cast; ring
    · rw [hb']; push_cast; ring
    · refine wroteOnce_glue (a := p) (b := p + 1) ⟨?_, ?_, ?_⟩ hw (by omega) (by omega)
        (Or.inl ⟨rfl, rfl, by omega⟩)
      · simp
      · intro k hk
        exact List.getElem?_set_ne (by omega)
      · intro z
        simp only [count_snoc]
        congr 1
        split_ifs <;> omega
    · refine readWithin_glue (a := q) (b := q + 3) ?_ hr ⟨le_refl _, by omega⟩
        ⟨by omega, by omega⟩
      intro z hz
      simp only [List.mem_append, List.mem_cons, List.mem_singleton, List.not_mem_nil,
        or_false] at hz
      rcases hz with hz | hz | hz | hz
      · exact Or.inl hz
      · exact Or.inr (by omega)
      · exact Or.inr (by omega)
      · exact Or.inr (by omega)
    · intro j k a hj hk ha
      cases j with
      | zero =>
        have hk0 : k = p := by omega
        have ha0 : a = q := by omega
        subst hk0 ha0
        refine ⟨b, g, r, h0, h1, h2, ?_⟩
        rw [hw.2.1 k (by omega)]
        exact List.getElem?_set_self hp
      | succ j => exact hv j k a (by omega) (by omega) (by omega)

/-! ## The pixel loop of the colour conversion -/

theorem colourPixel_eq (src : List UCHAR) (m : Mach) (p q : Nat) (b g r : UCHAR)
    (hi : m.image = (p : Int)) (hb : m.buffer = (q : Int))
    (h0 : src[q]? = some b) (h1 : src[q + 1]? = some g) (h2 : src[q + 2]? = some r)
    (hp : p + 2 < m.out.length) :
    colourPixel src m = some
      { image := ((p + 3 : Nat) : Int), buffer := ((q + 3 : Nat) : Int),
        out := ((m.out.set p r).set (p + 1) g).set (p + 2) b,
        reads := m.reads ++ [((q + 2 : Nat) : Int), ((q + 1 : Nat) : Int), (q : Int)],
        writes := m.writes ++ [(p : Int), ((p + 1 : Nat) : Int), ((p + 2 : Nat) : Int)] } := by
  obtain ⟨im, bu, out, rd, wr⟩ := m
  simp only at hi hb hp
  subst hi hb
  unfold colourPixel
  simp only []
  rw [load_at src _ _ (q + 2) r (by push_cast; rfl) h2]
  simp only [Option.bind_eq_bind, Option.some_bind, bind, pure]
  rw [store_at _ _ p _ rfl (by simp only []; omega)]
  simp only [Option.bind_eq_bind, Option.some_bind, bind, pure]
  rw [load_at src _ _ (q + 1) g (by push_cast; rfl) h1]
  simp only [Option.bind_eq_bind, Option.some_bind, bind, pure]
  rw [store_at _ _ (p + 1) _ (by push_cast; rfl) (by simp only [List.length_set]; omega)]
  simp only [Option.bind_eq_bind, Option.some_bind, bind, pure]
  rw [load_at src _ _ q b rfl h0]
  simp only [Option.bind_eq_bind, Option.some_bind, bind, pure]
  rw [store_at _ _ (p + 2) _ (by push_cast; ring) (by simp only [List.length_set]; omega)]
  simp only [Option.bind_eq_bind, Option.some_bind, bind, pure]
  simp [Mach.mk.injEq]
  omega

theorem colourPixels_run (src : List UCHAR) : ∀ (n : Nat) (m : Mach) (p q : Nat),
    m.image = (p : Int) → m.buffer = (q : Int) →
    q + 3 * n ≤ src.length → p + 3 * n ≤ m.out.length →
    ∃ m', loopN n (colourPixel src) m = some m' ∧
      m'.image = (p : Int) + 3 * n ∧ m'.buffer = (q : Int) + 3 * n ∧
      WroteOnce m m' p (p + 3 * n) ∧ ReadWithin m m' q (q + 3 * n) ∧
      ∀ j k a : Nat, j < n → k = p + 3 * j → a = q + 3 * j →
        ∃ b g r, src[a]? = some b ∧ src[a + 1]? = some g ∧ src[a + 2]? = some r ∧
          m'.out[k]? = some r ∧ m'.out[k + 1]? = some g ∧ m'.out[k + 2]? = some b := by
  intro n
  induction n with
  | zero =>
    intro m p q hi hb _ _
    exact ⟨m, rfl, by simpa using hi, by simpa using hb, wroteOnce_refl m p,
      readWithin_refl m _ _, fun j k a hj => absurd hj (Nat.not_lt_zero j)⟩
  | succ n ih =>
    intro m p q hi hb hsrc hout
    obtain ⟨b, h0⟩ := exists_byte src q (by omega)
    obtain ⟨g, h1⟩ := exists_byte src (q + 1) (by omega)
    obtain ⟨r, h2⟩ := exists_byte src (q + 2) (by omega)
    have hp : p + 2 < m.out.length := by omega
    have hstep := colourPixel_eq src m p q b g r hi hb h0 h1 h2 hp
    obtain ⟨m', hrun, hi', hb', hw, hr, hv⟩ :=
      ih { image := ((p + 3 : Nat) : Int), buffer := ((q + 3 : Nat) : Int),
           out := ((m.out.set p r).set (p + 1) g).set (p + 2) b,
           reads := m.reads ++ [((q + 2 : Nat) : Int), ((q + 1 : Nat) : Int), (q : Int)],
           writes := m.writes ++ [(p : Int), ((p + 1 : Nat) : Int), ((p + 2 : Nat) : Int)] }
        (p + 3) (q + 3) rfl rfl (by omega) (by simp only [List.length_set]; omega)
    refine ⟨m', ?_, ?_, ?_, ?_, ?_, ?_⟩
    · rw [loopN_succ n _ m _ hstep]; exact hrun
    · rw [hi']; push_cast; ring
    · rw [hb']; push_cast; ring
    · refine wroteOnce_glue (a := p) (b := p + 3) ⟨?_, ?_, ?_⟩ hw (by omega) (by omega)
        (Or.inl ⟨rfl, rfl, by omega⟩)
      · simp
      · intro k hk
        simp only []
        rw [List.getElem?_set_ne (by omega), List.getElem?_set_ne (by omega),
          List.getElem?_set_ne (by omega)]
      · intro z
        have e : m.writes ++ [(p : Int), ((p + 1 : Nat) : Int), ((p + 2 : Nat) : Int)] =
            m.writes ++ [(p : Int)] ++ [((p + 1 : Nat) : Int)] ++ [((p + 2 : Nat) : Int)] := by
          simp
        simp only [e, count_snoc]
        split_ifs <;> omega
    · refine readWithin_glue (a := q) (b := q + 3) ?_ hr ⟨le_refl _, by omega⟩
        ⟨by omega, by omega⟩
      intro z hz
      simp only [List.mem_append, List.mem_cons, List.mem_singleton, List.not_mem_nil,
        or_false] at hz
      rcases hz with hz | hz | hz | hz
      · exact Or.inl hz
      · exact Or.inr (by omega)
      · exact Or.inr (by omega)
      · exact Or.inr (by omega)
    · intro j k a hj hk ha
      cases j with
      | zero =>
        have hk0 : k = p := by omega
        have ha0 : a = q := by omega
        subst hk0 ha0
        refine ⟨b, g, r, h0, h1, h2, ?_, ?_, ?_⟩
        · rw [hw.2.1 k (by omega)]
          simp only []
          rw [List.getElem?_set_ne (by omega), List.getElem?_set_ne (by omega)]
          exact List.getElem?_set_self (by omega)
        · rw [hw.2.1 (k + 1) (by omega)]
          simp only []
          rw [List.getElem?_set_ne (by omega)]
          exact List.getElem?_set_self (by simp only [List.length_set]; omega)
        · rw [hw.2.1 (k + 2) (by omega)]
          exact List.getElem?_set_self (by simp only [List.length_set]; omega)
      | succ j => exact hv j k a (by omega) (by omega) (by omega)

/-! ## memcpy -/

theorem memcpy_run (src : List UCHAR) : ∀ (n : Nat) (m : Mach) (d s : Int) (p q : Nat),
    d = (p : Int) → s = (q : Int) → q + n ≤ src.length → p + n ≤ m.out.length →
    ∃ m', memcpy src n d s m = some m' ∧
      m'.image = m.image ∧ m'.buffer = m.buffer ∧
      WroteOnce m m' p (p + n) ∧ ReadWithin m m' q (q + n) ∧
      ∀ j k a : Nat, j < n → k = p + j → a = q + j →
        ∃ v, src[a]? = some v ∧ m'.out[k]? = some v := by
  intro n
  induction n with
  | zero =>
    intro m d s p q _ _ _ _
    exact ⟨m, rfl, rfl, rfl, wroteOnce_refl m p, readWithin_refl m _ _,
      fun j k a hj => absurd hj (Nat.not_lt_zero j)⟩
  | succ n ih =>
    intro m d s p q hd hs hsrc hout
    obtain ⟨v, h0⟩ := exists_byte src q (by omega)
    have hp : p < m.out.length := by omega
    obtain ⟨m', hrun, hi', hb', hw, hr, hv⟩ :=
      ih { m with out := m.out.set p v, reads := m.reads ++ [s], writes := m.writes ++ [d] }
        (d + 1) (s + 1) (p + 1) (q + 1) (by omega) (by omega) (by omega)
        (by simp only [List.length_set]; omega)
    refine ⟨m', ?_, hi', hb', ?_, ?_, ?_⟩
    · unfold memcpy
      rw [load_at src m s q v hs h0]
      simp only [Option.bind_eq_bind, Option.some_bind, bind, pure]
      rw [store_at _ d p v hd (by simpa using hp)]
      simp only [Option.bind_eq_bind, Option.some_bind, bind, pure]
      exact hrun
    · refine wroteOnce_glue (a := p) (b := p + 1) ⟨?_, ?_, ?_⟩ hw (by omega) (by omega)
        (Or.inl ⟨rfl, rfl, by omega⟩)
      · simp
      · intro k hk
        exact List.getElem?_set_ne (by omega)
      · intro z
        simp only [count_snoc]
        congr 1
        split_ifs <;> omega
    · refine readWithin_glue (a := q) (b := q + 1) ?_ hr ⟨le_refl _, by omega⟩
        ⟨by omega, by omega⟩
      intro z hz
      simp only [List.mem_append, List.mem_singleton] at hz
      rcases hz with hz | hz
      · exact Or.inl hz
      · exact Or.inr (by omega)
    · intro j k a hj hk ha
      cases j with
      | zero =>
        have hk0 : k = p := by omega
        have ha0 : a = q := by omega
        subst hk0 ha0
        refine ⟨v, h0, ?_⟩
        rw [hw.2.1 k (by omega)]
        exact List.getElem?_set_self hp
      | succ j => exact hv j k a (by omega) (by omega) (by omega)

/-! ## The row loops -/

theorem wrapInt_id (z : Int) (h1 : -2147483648 ≤ z) (h2 : z < 2147483648) :
    wrapInt z = z := by
  unfold wrapInt
  omega

theorem copyRows_run (f : IplImage) (R : Nat) (hR : R ≤ f.imageData.length) :
    ∀ (n : Nat) (m : Mach) (q : Nat),
    (0 < n → m.image = ((n : Int) - 1) * f.width) → m.buffer = (q : Int) →
    q + n * f.widthStep + f.width ≤ R + f.widthStep →
    n * f.width ≤ m.out.length →
    ∃ m', loopN n (copyRow f) m = some m' ∧
      WroteOnce m m' 0 (n * f.width) ∧ ReadWithin m m' q R ∧
      ∀ i j x k a : Nat, i + j + 1 = n → x < f.width →
        k = i * f.width + x → a = q + j * f.widthStep + x →
        ∃ v, f.imageData[a]? = some v ∧ m'.out[k]? = some v := by
  intro n
  induction n with
  | zero =>
    intro m q _ _ _ _
    refine ⟨m, rfl, ?_, readWithin_refl m _ _, fun i j x k a h => by omega⟩
    simpa using wroteOnce_refl m 0
  | succ n ih =>
    intro m q hi hb hsrc hout
    have e1 : (n + 1) * f.widthStep = n * f.widthStep + f.widthStep := Nat.succ_mul _ _
    have e2 : (n + 1) * f.width = n * f.width + f.width := Nat.succ_mul _ _
    have hi0 : m.image = ((n * f.width : Nat) : Int) := by
      rw [hi (Nat.succ_pos n)]; push_cast; ring
    obtain ⟨m1, hcpy, hi1, hb1, hw1, hr1, hv1⟩ :=
      memcpy_run f.imageData f.width m m.image m.buffer (n * f.width) q hi0 hb
        (by omega) (by omega)
    have hrow : copyRow f m = some
        { m1 with image := m1.image - f.width, buffer := m1.buffer + f.widthStep } := by
      unfold copyRow
      rw [hcpy]
      rfl
    obtain ⟨m', hrun, hw, hr, hv⟩ :=
      ih { m1 with image := m1.image - f.width, buffer := m1.buffer + f.widthStep } (q + f.widthStep)
        (fun _ => by
          show m1.image - (f.width : Int) = ((n : Int) - 1) * f.width
          rw [hi1, hi0]; push_cast; ring)
        (by show m1.buffer + (f.widthStep : Int) = ((q + f.widthStep : Nat) : Int)
            rw [hb1, hb]; push_cast; ring)
        (by omega)
        (by show n * f.width ≤ m1.out.length
            rw [hw1.1]; omega)
    refine ⟨m', ?_, ?_, ?_, ?_⟩
    · rw [loopN_succ n _ m _ hrow]; exact hrun
    · have hw1' : WroteOnce m
          { m1 with image := m1.image - f.width, buffer := m1.buffer + f.widthStep }
          (n * f.width) (n * f.width + f.width) := hw1
      exact wroteOnce_glue hw1' hw (by omega) (by omega) (Or.inr ⟨rfl, rfl, by omega⟩)
    · have hr1' : ReadWithin m
          { m1 with image := m1.image - f.width, buffer := m1.buffer + f.widthStep }
          q (q + f.width) := hr1
      exact readWithin_glue hr1' hr ⟨le_refl _, by omega⟩ ⟨by omega, le_refl _⟩
    · intro i j x k a hij hx hk ha
      cases j with
      | zero =>
        have hin : i = n := by omega
        subst hin
        obtain ⟨v, hsv, hov⟩ := hv1 x k a hx hk (by omega)
        refine ⟨v, hsv, ?_⟩
        rw [hw.2.1 k (by omega)]
        exact hov
      | succ j =>
        have e3 : (j + 1) * f.widthStep = j * f.widthStep + f.widthStep := Nat.succ_mul _ _
        exact hv i j x k a (by omega) hx hk (by omega)

theorem rewind_buffer (f : IplImage) (m : Mach) (hC : f.nChannels = 3)
    (h : f.widthStep + 3 * f.width < 2147483648) :
    (rewind f m).buffer = m.buffer - (f.widthStep + 3 * f.width) := by
  unfold rewind
  simp only [hC]
  rw [wrapInt_id ((3 : Nat) * (f.width : Int)) (by push_cast; omega) (by push_cast; omega),
    wrapInt_id _ (by push_cast; omega) (by push_cast; omega)]
  push_cast
  ring

theorem grayRows_run (f : IplImage) (hC : f.nChannels = 3)
    (hlen : f.imageData.length < 2147483648) (R : Nat) (hR : R ≤ f.imageData.length) :
    ∀ (n : Nat) (m : Mach) (p : Nat),
    m.image = (p : Int) → (0 < n → m.buffer = ((n : Int) - 1) * f.widthStep) →
    n * f.widthStep + 3 * f.width ≤ R + f.widthStep →
    p + n * f.width ≤ m.out.length →
    ∃ m', loopN n (grayRow f) m = some m' ∧
      WroteOnce m m' p (p + n * f.width) ∧ ReadWithin m m' 0 R ∧
      ∀ i j x k a : Nat, i + j + 1 = n → x < f.width →
        k = p + i * f.width + x → a = j * f.widthStep + 3 * x →
        ∃ b g r, f.imageData[a]? = some b ∧ f.imageData[a + 1]? = some g ∧
          f.imageData[a + 2]? = some r ∧ m'.out[k]? = some (lumaByte r g b) := by
  intro n
  induction n with
  | zero =>
    intro m p _ _ _ _
    refine ⟨m, rfl, ?_, readWithin_refl m _ _, fun i j x k a h => by omega⟩
    simpa using wroteOnce_refl m p
  | succ n ih =>
    intro m p hi hb hsrc hout
    have e1 : (n + 1) * f.widthStep = n * f.widthStep + f.widthStep := Nat.succ_mul _ _
    have e2 : (n + 1) * f.width = n * f.width + f.width := Nat.succ_mul _ _
    have hb0 : m.buffer = ((n * f.widthStep : Nat) : Int) := by
      rw [hb (Nat.succ_pos n)]; push_cast; ring
    obtain ⟨m1, hpix, hi1, hb1, hw1, hr1, hv1⟩ :=
      grayPixels_run f.imageData f.width m p (n * f.widthStep) hi hb0 (by omega) (by omega)
    have hrow : grayRow f m = some (rewind f m1) := by
      unfold grayRow
      rw [hpix]
      rfl
    have hbuf : 0 < n → (rewind f m1).buffer = ((n : Int) - 1) * f.widthStep := by
      intro hn
      obtain ⟨n', rfl⟩ : ∃ n', n = n' + 1 := ⟨n - 1, by omega⟩
      have e3 : (n' + 1) * f.widthStep = n' * f.widthStep + f.widthStep := Nat.succ_mul _ _
      rw [rewind_buffer f m1 hC (by omega), hb1]
      push_cast
      ring
    obtain ⟨m', hrun, hw, hr, hv⟩ :=
      ih (rewind f m1) (p + f.width)
        (by show m1.image = _
            rw [hi1]; push_cast; ring)
        hbuf (by omega)
        (by show _ ≤ m1.out.length
            rw [hw1.1]; omega)
    refine ⟨m', ?_, ?_, ?_, ?_⟩
    · rw [loopN_succ n _ m _ hrow]; exact hrun
    · have hw1' : WroteOnce m (rewind f m1) p (p + f.width) := hw1
      exact wroteOnce_glue hw1' hw (by omega) (by omega) (Or.inl ⟨rfl, rfl, by omega⟩)
    · have hr1' : ReadWithin m (rewind f m1) (n * f.widthStep)
          (n * f.widthStep + 3 * f.width) := hr1
      exact readWithin_glue hr1' hr ⟨Nat.zero_le _, le_refl _⟩ ⟨by omega, le_refl _⟩
    · intro i j x k a hij hx hk ha
      cases i with
      | zero =>
        have hjn : j = n := by omega
        subst hjn
        obtain ⟨b, g, r, h0, h1, h2, ho⟩ := hv1 x k a hx (by omega) (by omega)
        refine ⟨b, g, r, h0, h1, h2, ?_⟩
        rw [hw.2.1 k (by omega)]
        exact ho
      | succ i =>
        have e4 : (i + 1) * f.width = i * f.width + f.width := Nat.succ_mul _ _
        exact hv i j x k a (by omega) hx (by omega) ha

theorem colourRows_run (f : IplImage) (hC : f.nChannels = 3)
    (hlen : f.imageData.length < 2147483648) (R : Nat) (hR : R ≤ f.imageData.length) :
    ∀ (n : Nat) (m : Mach) (p : Nat),
    m.image = (p : Int) → (0 < n → m.buffer = ((n : Int) - 1) * f.widthStep) →
    n * f.widthStep + 3 * f.width ≤ R + f.widthStep →
    p + 3 * (n * f.width) ≤ m.out.length →
    ∃ m', loopN n (colourRow f) m = some m' ∧
      WroteOnce m m' p (p + 3 * (n * f.width)) ∧ ReadWithin m m' 0 R ∧
      ∀ i j x k a : Nat, i + j + 1 = n → x < f.width →
        k = p + 3 * (i * f.width + x) → a = j * f.widthStep + 3 * x →
        ∃ b g r, f.imageData[a]? = some b ∧ f.imageData[a + 1]? = some g ∧
          f.imageData[a + 2]? = some r ∧ m'.out[k]? = some r ∧ m'.out[k + 1]? = some g ∧ m'.out[k + 2]? = some b := by
  intro n
  induction n with
  | zero =>
    intro m p _ _ _ _
    refine ⟨m, rfl, ?_, readWithin_refl m _ _, fun i j x k a h => by omega⟩
    simpa using wroteOnce_refl m p
  | succ n ih =>
    intro m p hi hb hsrc hout
    have e1 : (n + 1) * f.widthStep = n * f.widthStep + f.widthStep := Nat.succ_mul _ _
    have e2 : (n + 1) * f.width = n * f.width + f.width := Nat.succ_mul _ _
    have hb0 : m.buffer = ((n * f.widthStep : Nat) : Int) := by
      rw [hb (Nat.succ_pos n)]; push_cast; ring
    obtain ⟨m1, hpix, hi1, hb1, hw1, hr1, hv1⟩ :=
      colourPixels_run f.imageData f.width m p (n * f.widthStep) hi hb0 (by omega) (by omega)
    have hrow : colourRow f m = some (rewind f m1) := by
      unfold colourRow
      rw [hpix]
      rfl
    have hbuf : 0 < n → (rewind f m1).buffer = ((n : Int) - 1) * f.widthStep := by
      intro hn
      obtain ⟨n', rfl⟩ : ∃ n', n = n' + 1 := ⟨n - 1, by omega⟩
      have e3 : (n' + 1) * f.widthStep = n' * f.widthStep + f.widthStep := Nat.succ_mul _ _
      rw [rewind_buffer f m1 hC (by omega), hb1]
      push_cast
      ring
    obtain ⟨m', hrun, hw, hr, hv⟩ :=
      ih (rewind f m1) (p + 3 * f.width)
        (by show m1.image = _
            rw [hi1]; push_cast; ring)
        hbuf (by omega)
        (by show _ ≤ m1.out.length
            rw [hw1.1]; omega)
    refine ⟨m', ?_, ?_, ?_, ?_⟩
    · rw [loopN_succ n _ m _ hrow]; exact hrun
    · have hw1' : WroteOnce m (rewind f m1) p (p + 3 * f.width) := hw1
      exact wroteOnce_glue hw1' hw (by omega) (by omega) (Or.inl ⟨rfl, rfl, by omega⟩)
    · have hr1' : ReadWithin m (rewind f m1) (n * f.widthStep)
          (n * f.widthStep + 3 * f.width) := hr1
      exact readWithin_glue hr1' hr ⟨Nat.zero_le _, le_refl _⟩ ⟨by omega, le_refl _⟩
    · intro i j x k a hij hx hk ha
      cases i with
      | zero =>
        have hjn : j = n := by omega
        subst hjn
        obtain ⟨b, g, r, h0, h1, h2, ho0, ho1, ho2⟩ := hv1 x k a hx (by omega) (by omega)
        refine ⟨b, g, r, h0, h1, h2, ?_, ?_, ?_⟩
        · rw [hw.2.1 k (by omega)]
          exact ho0
        · rw [hw.2.1 (k + 1) (by omega)]
          exact ho1
        · rw [hw.2.1 (k + 2) (by omega)]
          exact ho2
      | succ i =>
        have e4 : (i + 1) * f.width = i * f.width + f.width := Nat.succ_mul _ _
        exact hv i j x k a (by omega) hx (by omega) ha

/-! ## The three transfers as a whole -/

theorem wrapInt_rows (H X : Nat) (hpos : 0 < H) (hb : H * X < 2147483648) :
    wrapInt (wrapInt ((H : Int) - 1) * (X : Int)) = ((H : Int) - 1) * (X : Int) := by
  obtain ⟨h, rfl⟩ : ∃ h, H = h + 1 := ⟨H - 1, by omega⟩
  have e : (h + 1) * X = h * X + X := Nat.succ_mul _ _
  rcases Nat.eq_zero_or_pos X with hX | hX
  · subst hX
    simp [wrapInt]
  · have h1 : h + 1 ≤ (h + 1) * X := Nat.le_mul_of_pos_right _ hX
    have e2 : ((h + 1 : Nat) : Int) - 1 = (h : Int) := by push_cast; ring
    rw [e2, wrapInt_id (h : Int) (by omega) (by omega)]
    have e3 : (h : Int) * (X : Int) = ((h * X : Nat) : Int) := by push_cast; rfl
    rw [e3]
    exact wrapInt_id _ (by omega) (by omega)

theorem start_out_length (dims : List Nat) (ini : Nat → UCHAR) :
    (start dims ini).out.length = dims.prod := by
  simp [start, IDL_MakeTempArray]

theorem native_gray_run (f : IplImage) (gray : Int) (ini : Nat → UCHAR) (R : Nat)
    (hC : f.nChannels = 1) (hS : f.width ≤ f.widthStep)
    (hlen : f.height * f.widthStep ≤ f.imageData.length)
    (hint : f.imageData.length < 2147483648)
    (hR : f.height * f.widthStep + f.width ≤ R + f.widthStep)
    (hR' : R ≤ f.imageData.length) :
    ∃ m, idlvideo_read_transfer f gray ini = some ([f.width, f.height], m) ∧
      WroteOnce (start [f.width, f.height] ini) m 0 (f.height * f.width) ∧
      ReadWithin (start [f.width, f.height] ini) m 0 R ∧
      ∀ i j x k a : Nat, i + j + 1 = f.height → x < f.width →
        k = i * f.width + x → a = j * f.widthStep + x →
        ∃ v, f.imageData[a]? = some v ∧ m.out[k]? = some v := by
  have hWS : f.height * f.width ≤ f.height * f.widthStep := Nat.mul_le_mul_left _ hS
  obtain ⟨m, hrun, hw, hr, hv⟩ := copyRows_run f R hR' f.height
    { start [f.width, f.height] ini with
      image := (start [f.width, f.height] ini).image +
        wrapInt (wrapInt ((f.height : Int) - 1) * (f.width : Int)) } 0
    (fun hpos => by
      show (0 : Int) + _ = _
      rw [wrapInt_rows f.height f.width hpos (by omega)]; ring)
    rfl (by omega)
    (by show _ ≤ (start [f.width, f.height] ini).out.length
        rw [start_out_length]; simp [Nat.mul_comm])
  refine ⟨m, ?_, hw, hr, ?_⟩
  · unfold idlvideo_read_transfer
    simp only [hC, if_true]
    rw [hrun]
    rfl
  · intro i j x k a hij hx hk ha
    exact hv i j x k a hij hx hk (by omega)

theorem gray_from_colour_run (f : IplImage) (gray : Int) (ini : Nat → UCHAR) (R : Nat)
    (hC : f.nChannels = 3) (hg : gray ≠ 0)
    (hlen : f.height * f.widthStep ≤ f.imageData.length)
    (hint : f.imageData.length < 2147483648)
    (hR : f.height * f.widthStep + 3 * f.width ≤ R + f.widthStep)
    (hR' : R ≤ f.imageData.length) :
    ∃ m, idlvideo_read_transfer f gray ini = some ([f.width, f.height], m) ∧
      WroteOnce (start [f.width, f.height] ini) m 0 (f.height * f.width) ∧
      ReadWithin (start [f.width, f.height] ini) m 0 R ∧
      ∀ i j x k a : Nat, i + j + 1 = f.height → x < f.width →
        k = i * f.width + x → a = j * f.widthStep + 3 * x →
        ∃ b g r, f.imageData[a]? = some b ∧ f.imageData[a + 1]? = some g ∧
          f.imageData[a + 2]? = some r ∧ m.out[k]? = some (lumaByte r g b) := by
  obtain ⟨m, hrun, hw, hr, hv⟩ := grayRows_run f hC hint R hR' f.height
    { start [f.width, f.height] ini with
      buffer := (start [f.width, f.height] ini).buffer +
        wrapInt (wrapInt ((f.height : Int) - 1) * (f.widthStep : Int)) } 0
    rfl
    (fun hpos => by
      show (0 : Int) + _ = _
      rw [wrapInt_rows f.height f.widthStep hpos (by omega)]; ring)
    hR
    (by show _ ≤ (start [f.width, f.height] ini).out.length
        rw [start_out_length]; simp [Nat.mul_comm])
  refine ⟨m, ?_, ?_, hr, ?_⟩
  · unfold idlvideo_read_transfer
    have h1 : f.nChannels ≠ 1 := by omega
    simp only [h1, if_false, hg, ne_eq, not_false_eq_true, if_true]
    rw [hrun]
    rfl
  · simpa using hw
  · intro i j x k a hij hx hk ha
    exact hv i j x k a hij hx (by omega) ha

theorem colour_run (f : IplImage) (ini : Nat → UCHAR) (R : Nat)
    (hC : f.nChannels = 3)
    (hlen : f.height * f.widthStep ≤ f.imageData.length)
    (hint : f.imageData.length < 2147483648)
    (hR : f.height * f.widthStep + 3 * f.width ≤ R + f.widthStep)
    (hR' : R ≤ f.imageData.length) :
    ∃ m, idlvideo_read_transfer f 0 ini = some ([3, f.width, f.height], m) ∧
      WroteOnce (start [3, f.width, f.height] ini) m 0 (3 * (f.height * f.width)) ∧
      ReadWithin (start [3, f.width, f.height] ini) m 0 R ∧
      ∀ i j x k a : Nat, i + j + 1 = f.height → x < f.width →
        k = 3 * (i * f.width + x) → a = j * f.widthStep + 3 * x →
        ∃ b g r, f.imageData[a]? = some b ∧ f.imageData[a + 1]? = some g ∧
          f.imageData[a + 2]? = some r ∧
          m.out[k]? = some r ∧ m.out[k + 1]? = some g ∧ m.out[k + 2]? = some b := by
  obtain ⟨m, hrun, hw, hr, hv⟩ := colourRows_run f hC hint R hR' f.height
    { start [3, f.width, f.height] ini with
      buffer := (start [3, f.width, f.height] ini).buffer +
        wrapInt (wrapInt ((f.height : Int) - 1) * (f.widthStep : Int)) } 0
    rfl
    (fun hpos => by
      show (0 : Int) + _ = _
      rw [wrapInt_rows f.height f.widthStep hpos (by omega)]; ring)
    hR
    (by show _ ≤ (start [3, f.width, f.height] ini).out.length
        rw [start_out_length]; simp [Nat.mul_comm])
  refine ⟨m, ?_, ?_, hr, ?_⟩
  · unfold idlvideo_read_transfer
    have h1 : f.nChannels ≠ 1 := by omega
    simp only [h1, if_false, ne_eq, not_true_eq_false]
    rw [hC, hrun]
    rfl
  · simpa using hw
  · intro i j x k a hij hx hk ha
    exact hv i j x k a hij hx (by omega) ha

theorem lumaValue_exact (r g b : UCHAR) :
    lumaValue r.val g.val b.val = 77 * r.val + 151 * g.val + 28 * b.val := by
  have hr := r.isLt
  have hg := g.isLt
  have hb := b.isLt
  unfold lumaValue wrapUInt
  omega

theorem lumaByte_val (r g b : UCHAR) :
    (lumaByte r g b).val = (77 * r.val + 151 * g.val + 28 * b.val) >>> 8 := by
  have hr := r.isLt
  have hg := g.isLt
  have hb := b.isLt
  unfold lumaByte toUCHAR
  rw [lumaValue_exact]
  simp only [Nat.shiftRight_eq_div_pow]
  show (77 * r.val + 151 * g.val + 28 * b.val) / 2 ^ 8 % 256 = _
  omega

theorem start_logs (dims : List Nat) (ini : Nat → UCHAR) (m : Mach) (N R : Nat)
    (hw : WroteOnce (start dims ini) m 0 N) (hr : ReadWithin (start dims ini) m 0 R) :
    m.out.length = dims.prod ∧
    (∀ z : Int, z ∈ m.reads → 0 ≤ z ∧ z < (R : Int)) ∧
    (∀ z : Int, z ∈ m.writes → 0 ≤ z ∧ z < (N : Int)) ∧
    (∀ k : Nat, k < N → m.writes.count (k : Int) = 1) := by
  obtain ⟨hl, _, hc⟩ := hw
  have hc' : ∀ z : Int, m.writes.count z =
      if (0 : Int) ≤ z ∧ z < (N : Int) then 1 else 0 := by
    intro z
    have := hc z
    simpa [start] using this
  refine ⟨by rw [hl, start_out_length], ?_, ?_, ?_⟩
  · intro z hz
    rcases hr z hz with h | h
    · simp [start] at h
    · simpa using h
  · intro z hz
    have hpos : 0 < m.writes.count z := List.count_pos_iff.mpr hz
    rw [hc' z] at hpos
    by_contra hcon
    simp [hcon] at hpos
  · intro k hk
    rw [hc' (k : Int)]
    have : (0 : Int) ≤ (k : Int) ∧ (k : Int) < (N : Int) := by omega
    simp [this]

theorem idx_congr (l : List UCHAR) {i j : Nat} (h : i = j) : l[i]? = l[j]? := by
  rw [h]

theorem split_index (n W H : Nat) (hn : n < H * W) :
    ∃ i x, i < H ∧ x < W ∧ n = i * W + x := by
  refine ⟨n / W, n % W, ?_⟩
  have hW : 0 < W := by
    rcases Nat.eq_zero_or_pos W with h | h
    · subst h; simp at hn
    · exact h
  refine ⟨?_, Nat.mod_lt _ hW, ?_⟩
  · exact Nat.div_lt_of_lt_mul (by rwa [Nat.mul_comm] at hn)
  · have := Nat.div_add_mod n W
    rw [Nat.mul_comm] at this
    omega

theorem out_ext (m1 m2 : Mach) (N : Nat) (h1 : m1.out.length = N) (h2 : m2.out.length = N)
    (h : ∀ n, n < N → m1.out[n]? = m2.out[n]?) : m1.out = m2.out := by
  apply List.ext_getElem?
  intro n
  by_cases hn : n < N
  · exact h n hn
  · rw [List.getElem?_eq_none (by omega), List.getElem?_eq_none (by omega)]

theorem native_gray_padding (f : IplImage) (d2 : List UCHAR) (gray : Int)
    (ini1 ini2 : Nat → UCHAR)
    (hC : f.nChannels = 1) (hS : f.width ≤ f.widthStep)
    (hlen1 : f.height * f.widthStep ≤ f.imageData.length)
    (hint1 : f.imageData.length < 2147483648)
    (hlen2 : f.height * f.widthStep ≤ d2.length) (hint2 : d2.length < 2147483648)
    (hagree : ∀ r k : Nat, r < f.height → k < f.width →
      f.imageData[r * f.widthStep + k]? = d2[r * f.widthStep + k]?) :
    ∃ m1 m2, idlvideo_read_transfer f gray ini1 = some ([f.width, f.height], m1) ∧
      idlvideo_read_transfer { f with imageData := d2 } gray ini2 =
        some ([f.width, f.height], m2) ∧
      m1.out = m2.out := by
  obtain ⟨m1, hrun1, hw1, hr1, hv1⟩ := native_gray_run f gray ini1 f.imageData.length hC hS
    hlen1 hint1 (by omega) (le_refl _)
  obtain ⟨m2, hrun2, hw2, hr2, hv2⟩ := native_gray_run { f with imageData := d2 } gray ini2
    d2.length hC hS hlen2 hint2 (by show f.height * f.widthStep + f.width ≤ d2.length + f.widthStep; omega) (le_refl _)
  refine ⟨m1, m2, hrun1, hrun2, ?_⟩
  have l1 := (start_logs _ ini1 m1 _ _ hw1 hr1).1
  have l2 := (start_logs _ ini2 m2 _ _ hw2 hr2).1
  refine out_ext m1 m2 (f.height * f.width) (by rw [l1]; simp [Nat.mul_comm])
    (by rw [l2]; simp [Nat.mul_comm]) ?_
  intro n hn
  obtain ⟨i, x, hi, hx, hnx⟩ := split_index n f.width f.height hn
  obtain ⟨v1, s1, o1⟩ := hv1 i (f.height - 1 - i) x n _
    (by omega) hx hnx rfl
  obtain ⟨v2, s2, o2⟩ := hv2 i (f.height - 1 - i) x n _
    (by show i + (f.height - 1 - i) + 1 = f.height; omega) hx hnx rfl
  have s2' : d2[(f.height - 1 - i) * f.widthStep + x]? = some v2 := s2
  rw [hagree _ _ (by omega) hx, s2'] at s1
  rw [o1, o2, ← Option.some.inj s1]

theorem gray_from_colour_padding (f : IplImage) (d2 : List UCHAR) (gray : Int)
    (ini1 ini2 : Nat → UCHAR)
    (hC : f.nChannels = 3) (hg : gray ≠ 0) (hS : 3 * f.width ≤ f.widthStep)
    (hlen1 : f.height * f.widthStep ≤ f.imageData.length)
    (hint1 : f.imageData.length < 2147483648)
    (hlen2 : f.height * f.widthStep ≤ d2.length) (hint2 : d2.length < 2147483648)
    (hagree : ∀ r k : Nat, r < f.height → k < 3 * f.width →
      f.imageData[r * f.widthStep + k]? = d2[r * f.widthStep + k]?) :
    ∃ m1 m2, idlvideo_read_transfer f gray ini1 = some ([f.width, f.height], m1) ∧
      idlvideo_read_transfer { f with imageData := d2 } gray ini2 =
        some ([f.width, f.height], m2) ∧
      m1.out = m2.out := by
  obtain ⟨m1, hrun1, hw1, hr1, hv1⟩ := gray_from_colour_run f gray ini1 f.imageData.length
    hC hg hlen1 hint1 (by omega) (le_refl _)
  obtain ⟨m2, hrun2, hw2, hr2, hv2⟩ := gray_from_colour_run { f with imageData := d2 } gray
    ini2 d2.length hC hg hlen2 hint2
    (by show f.height * f.widthStep + 3 * f.width ≤ d2.length + f.widthStep; omega) (le_refl _)
  refine ⟨m1, m2, hrun1, hrun2, ?_⟩
  have l1 := (start_logs _ ini1 m1 _ _ hw1 hr1).1
  have l2 := (start_logs _ ini2 m2 _ _ hw2 hr2).1
  refine out_ext m1 m2 (f.height * f.width) (by rw [l1]; simp [Nat.mul_comm])
    (by rw [l2]; simp [Nat.mul_comm]) ?_
  intro n hn
  obtain ⟨i, x, hi, hx, hnx⟩ := split_index n f.width f.height hn
  obtain ⟨b1, g1, r1, sb1, sg1, sr1, o1⟩ :=
    hv1 i (f.height - 1 - i) x n _ (by omega) hx hnx rfl
  obtain ⟨b2, g2, r2, sb2, sg2, sr2, o2⟩ :=
    hv2 i (f.height - 1 - i) x n _
      (by show i + (f.height - 1 - i) + 1 = f.height; omega) hx hnx rfl
  have sb2' : d2[(f.height - 1 - i) * f.widthStep + 3 * x]? =
      some b2 := sb2
  have sg2' : d2[(f.height - 1 - i) * f.widthStep + 3 * x + 1]? =
      some g2 := sg2
  have sr2' : d2[(f.height - 1 - i) * f.widthStep + 3 * x + 2]? =
      some r2 := sr2
  rw [hagree _ _ (by omega) (by omega), sb2'] at sb1
  rw [Nat.add_assoc, hagree _ _ (by omega) (by omega), ← Nat.add_assoc, sg2'] at sg1
  rw [Nat.add_assoc, hagree _ _ (by omega) (by omega), ← Nat.add_assoc, sr2'] at sr1
  rw [o1, o2, ← Option.some.inj sb1, ← Option.some.inj sg1, ← Option.some.inj sr1]

theorem colour_padding (f : IplImage) (d2 : List UCHAR) (ini1 ini2 : Nat → UCHAR)
    (hC : f.nChannels = 3) (hS : 3 * f.width ≤ f.widthStep)
    (hlen1 : f.height * f.widthStep ≤ f.imageData.length)
    (hint1 : f.imageData.length < 2147483648)
    (hlen2 : f.height * f.widthStep ≤ d2.length) (hint2 : d2.length < 2147483648)
    (hagree : ∀ r k : Nat, r < f.height → k < 3 * f.width →
      f.imageData[r * f.widthStep + k]? = d2[r * f.widthStep + k]?) :
    ∃ m1 m2, idlvideo_read_transfer f 0 ini1 = some ([3, f.width, f.height], m1) ∧
      idlvideo_read_transfer { f with imageData := d2 } 0 ini2 =
        some ([3, f.width, f.height], m2) ∧
      m1.out = m2.out := by
  obtain ⟨m1, hrun1, hw1, hr1, hv1⟩ := colour_run f ini1 f.imageData.length
    hC hlen1 hint1 (by omega) (le_refl _)
  obtain ⟨m2, hrun2, hw2, hr2, hv2⟩ := colour_run { f with imageData := d2 }
    ini2 d2.length hC hlen2 hint2
    (by show f.height * f.widthStep + 3 * f.width ≤ d2.length + f.widthStep; omega) (le_refl _)
  refine ⟨m1, m2, hrun1, hrun2, ?_⟩
  have l1 := (start_logs _ ini1 m1 _ _ hw1 hr1).1
  have l2 := (start_logs _ ini2 m2 _ _ hw2 hr2).1
  have e3 : [3, f.width, f.height].prod = 3 * (f.height * f.width) := by
    simp [Nat.mul_comm]
  refine out_ext m1 m2 (3 * (f.height * f.width)) (by rw [l1, e3]) (by rw [l2, e3]) ?_
  intro n hn
  obtain ⟨i, x, hi, hx, hnx⟩ := split_index (n / 3) f.width f.height (by omega)
  obtain ⟨b1, g1, r1, sb1, sg1, sr1, o0, o1, o2⟩ :=
    hv1 i (f.height - 1 - i) x _ _
      (by omega) hx rfl rfl
  obtain ⟨b2, g2, r2, sb2, sg2, sr2, p0, p1, p2⟩ :=
    hv2 i (f.height - 1 - i) x _ _
      (by show i + (f.height - 1 - i) + 1 = f.height; omega) hx rfl rfl
  have sb2' : d2[(f.height - 1 - i) * f.widthStep + 3 * x]? =
      some b2 := sb2
  have sg2' : d2[(f.height - 1 - i) * f.widthStep + 3 * x + 1]? =
      some g2 := sg2
  have sr2' : d2[(f.height - 1 - i) * f.widthStep + 3 * x + 2]? =
      some r2 := sr2
  rw [hagree _ _ (by omega) (by omega), sb2'] at sb1
  rw [Nat.add_assoc, hagree _ _ (by omega) (by omega), ← Nat.add_assoc, sg2'] at sg1
  rw [Nat.add_assoc, hagree _ _ (by omega) (by omega), ← Nat.add_assoc, sr2'] at sr1
  have p0' : m2.out[3 * (i * f.width + x)]? = some r2 := p0
  have p1' : m2.out[3 * (i * f.width + x) + 1]? = some g2 := p1
  have p2' : m2.out[3 * (i * f.width + x) + 2]? = some b2 := p2
  have hc : n % 3 = 0 ∨ n % 3 = 1 ∨ n % 3 = 2 := by omega
  rcases hc with h | h | h
  · rw [idx_congr m1.out (by omega : n = 3 * (i * f.width + x)),
      idx_congr m2.out (by omega : n = 3 * (i * f.width + x)),
      o0, p0', ← Option.some.inj sr1]
  · rw [idx_congr m1.out
        (by omega : n = 3 * (i * f.width + x) + 1),
      idx_congr m2.out
        (by omega : n = 3 * (i * f.width + x) + 1),
      o1, p1', ← Option.some.inj sg1]
  · rw [idx_congr m1.out
        (by omega : n = 3 * (i * f.width + x) + 2),
      idx_congr m2.out
        (by omega : n = 3 * (i * f.width + x) + 2),
      o2, p2', ← Option.some.inj sb1]

theorem loopN_idle (body : Mach → Option Mach)
    (h : ∀ m, ∃ m', body m = some m' ∧ m'.out = m.out ∧ m'.reads = m.reads ∧
      m'.writes = m.writes) :
    ∀ (n : Nat) (m : Mach), ∃ m', loopN n body m = some m' ∧ m'.out = m.out ∧
      m'.reads = m.reads ∧ m'.writes = m.writes := by
  intro n
  induction n with
  | zero => exact fun m => ⟨m, rfl, rfl, rfl, rfl⟩
  | succ n ih =>
    intro m
    obtain ⟨m1, h1, o1, r1, w1⟩ := h m
    obtain ⟨m2, h2, o2, r2, w2⟩ := ih m1
    exact ⟨m2, by rw [loopN_succ n body m m1 h1]; exact h2, o2.trans o1, r2.trans r1,
      w2.trans w1⟩

theorem empty_rows (f : IplImage) (h : f.width = 0 ∨ f.height = 0) (m : Mach) :
    (∃ m', loopN f.height (copyRow f) m = some m' ∧ m'.out = m.out ∧
      m'.reads = m.reads ∧ m'.writes = m.writes) ∧
    (∃ m', loopN f.height (grayRow f) m = some m' ∧ m'.out = m.out ∧
      m'.reads = m.reads ∧ m'.writes = m.writes) ∧
    (∃ m', loopN f.height (colourRow f) m = some m' ∧ m'.out = m.out ∧
      m'.reads = m.reads ∧ m'.writes = m.writes) := by
  rcases h with h | h
  · refine ⟨loopN_idle _ (fun m => ?_) _ m, loopN_idle _ (fun m => ?_) _ m,
      loopN_idle _ (fun m => ?_) _ m⟩
    · unfold copyRow
      rw [h]
      exact ⟨_, rfl, rfl, rfl, rfl⟩
    · unfold grayRow
      rw [h]
      exact ⟨_, rfl, rfl, rfl, rfl⟩
    · unfold colourRow
      rw [h]
      exact ⟨_, rfl, rfl, rfl, rfl⟩
  · rw [h]
    exact ⟨⟨m, rfl, rfl, rfl, rfl⟩, ⟨m, rfl, rfl, rfl, rfl⟩, ⟨m, rfl, rfl, rfl, rfl⟩⟩

theorem empty_array (dims : List Nat) (ini : Nat → UCHAR) (h : dims.prod = 0) :
    IDL_MakeTempArray dims ini = [] := by
  simp [IDL_MakeTempArray, h]

/-! ## The claims about the transfer -/

/-- C1. Native grayscale transfer: for a 1-channel frame whose stride is at
least its width and whose data holds at least `height * widthStep` bytes (a
size that fits the `int` field `imageSize`), whatever the gray flag, the
transfer returns a
`[width, height]` array of `width * height` bytes in which the byte at
`i * width + x` is the source byte at `(height - 1 - i) * widthStep + x`, for
every `i < height` and `x < width`: output row `i` is input row
`height - 1 - i` cut to `width` bytes. -/
theorem native_gray_rows_flipped (f : IplImage) (gray : Int) (ini : Nat → UCHAR)
    (hC : f.nChannels = 1) (hS : f.width ≤ f.widthStep)
    (hlen : f.height * f.widthStep ≤ f.imageData.length)
    (hint : f.imageData.length < 2147483648) :
    ∃ m, idlvideo_read_transfer f gray ini = some ([f.width, f.height], m) ∧
      m.out.length = f.width * f.height ∧
      ∀ i x : Nat, i < f.height → x < f.width →
        ∃ v, f.imageData[(f.height - 1 - i) * f.widthStep + x]? = some v ∧
          m.out[i * f.width + x]? = some v := by
  obtain ⟨m, hrun, hw, hr, hv⟩ := native_gray_run f gray ini f.imageData.length hC hS hlen hint
    (by omega) (le_refl _)
  refine ⟨m, hrun, ?_, ?_⟩
  · rw [(start_logs _ ini m _ _ hw hr).1]; simp
  · intro i x hi hx
    exact hv i (f.height - 1 - i) x _ _ (by omega) hx rfl rfl

/-- Witness of C1: a 2 x 3 one-channel frame with stride 3 (one padding byte
per row). -/
theorem native_gray_rows_flipped_witness :
    ∃ m, idlvideo_read_transfer ⟨1, 2, 3, 3, [10, 11, 99, 20, 21, 99, 30, 31, 99]⟩ 0
        (fun _ => 0) = some ([2, 3], m) ∧
      m.out.length = 2 * 3 ∧
      ∀ i x : Nat, i < 3 → x < 2 →
        ∃ v, ([10, 11, 99, 20, 21, 99, 30, 31, 99] : List UCHAR)[(3 - 1 - i) * 3 + x]? = some v ∧
          m.out[i * 2 + x]? = some v :=
  native_gray_rows_flipped ⟨1, 2, 3, 3, [10, 11, 99, 20, 21, 99, 30, 31, 99]⟩ 0 (fun _ => 0)
    rfl (by decide) (by decide) (by decide)

/-- C2. Gray-from-colour transfer: for a 3-channel frame with a non-zero gray
flag, stride at least `3 * width` and at least `height * widthStep` data bytes
(a size that fits the `int` field `imageSize`), the transfer returns a
`[width, height]` array in which the byte at
`i * width + x` is `(77*R + 151*G + 28*B) >> 8`, where `B`, `G`, `R` are the
source bytes at `(height - 1 - i) * widthStep + 3 * x + 0, 1, 2`. -/
theorem gray_from_colour_luma (f : IplImage) (gray : Int) (ini : Nat → UCHAR)
    (hC : f.nChannels = 3) (hg : gray ≠ 0) (hS : 3 * f.width ≤ f.widthStep)
    (hlen : f.height * f.widthStep ≤ f.imageData.length)
    (hint : f.imageData.length < 2147483648) :
    ∃ m, idlvideo_read_transfer f gray ini = some ([f.width, f.height], m) ∧
      m.out.length = f.width * f.height ∧
      ∀ i x : Nat, i < f.height → x < f.width →
        ∃ b g r y : UCHAR,
          f.imageData[(f.height - 1 - i) * f.widthStep + 3 * x]? = some b ∧
          f.imageData[(f.height - 1 - i) * f.widthStep + 3 * x + 1]? = some g ∧
          f.imageData[(f.height - 1 - i) * f.widthStep + 3 * x + 2]? = some r ∧
          m.out[i * f.width + x]? = some y ∧
          y.val = (77 * r.val + 151 * g.val + 28 * b.val) >>> 8 := by
  obtain ⟨m, hrun, hw, hr, hv⟩ := gray_from_colour_run f gray ini f.imageData.length hC hg
    hlen hint (by omega) (le_refl _)
  refine ⟨m, hrun, ?_, ?_⟩
  · rw [(start_logs _ ini m _ _ hw hr).1]; simp
  · intro i x hi hx
    obtain ⟨b, g, r, h0, h1, h2, ho⟩ :=
      hv i (f.height - 1 - i) x _ _ (by omega) hx rfl rfl
    exact ⟨b, g, r, lumaByte r g b, h0, h1, h2, ho, lumaByte_val r g b⟩

/-- Witness of C2: a 1 x 2 three-channel frame with stride 4. -/
theorem gray_from_colour_luma_witness :
    ∃ m, idlvideo_read_transfer ⟨3, 1, 2, 4, [255, 0, 0, 9, 0, 255, 0, 9]⟩ 1
        (fun _ => 0) = some ([1, 2], m) ∧
      m.out.length = 1 * 2 ∧
      ∀ i x : Nat, i < 2 → x < 1 →
        ∃ b g r y : UCHAR,
          ([255, 0, 0, 9, 0, 255, 0, 9] : List UCHAR)[(2 - 1 - i) * 4 + 3 * x]? = some b ∧
          ([255, 0, 0, 9, 0, 255, 0, 9] : List UCHAR)[(2 - 1 - i) * 4 + 3 * x + 1]? = some g ∧
          ([255, 0, 0, 9, 0, 255, 0, 9] : List UCHAR)[(2 - 1 - i) * 4 + 3 * x + 2]? = some r ∧
          m.out[i * 1 + x]? = some y ∧
          y.val = (77 * r.val + 151 * g.val + 28 * b.val) >>> 8 :=
  gray_from_colour_luma ⟨3, 1, 2, 4, [255, 0, 0, 9, 0, 255, 0, 9]⟩ 1 (fun _ => 0)
    rfl (by decide) (by decide) (by decide) (by decide)

/-- C10. Luma range and neutrality: for all bytes `r`, `g`, `b` the weighted
sum of idlvideo.c:183 stays below `2^32` (so `value` is the exact sum), its
shift by 8 is at most 255 (so the cast to a byte keeps it), the stored byte is
`(77*r + 151*g + 28*b) >> 8`, and a neutral pixel `r = g = b = v` gives
exactly `v`. -/
theorem luma_range_and_neutrality :
    (∀ r g b : UCHAR,
      r.val * 77 + g.val * 151 + b.val * 28 < 4294967296 ∧
      lumaValue r.val g.val b.val = r.val * 77 + g.val * 151 + b.val * 28 ∧
      lumaValue r.val g.val b.val >>> 8 ≤ 255 ∧
      (lumaByte r g b).val = (77 * r.val + 151 * g.val + 28 * b.val) >>> 8) ∧
    (∀ v : UCHAR, lumaByte v v v = v) := by
  constructor
  · intro r g b
    have hr := r.isLt
    have hg := g.isLt
    have hb := b.isLt
    refine ⟨by omega, by rw [lumaValue_exact]; omega, ?_, lumaByte_val r g b⟩
    rw [lumaValue_exact, Nat.shiftRight_eq_div_pow]
    show (77 * r.val + 151 * g.val + 28 * b.val) / 2 ^ 8 ≤ 255
    omega
  · intro v
    have hv := v.isLt
    apply Fin.ext
    rw [lumaByte_val, Nat.shiftRight_eq_div_pow]
    show (77 * v.val + 151 * v.val + 28 * v.val) / 2 ^ 8 = v.val
    omega

/-- C3. Colour transfer: for a 3-channel frame with the gray flag zero or
absent, stride at least `3 * width` and at least `height * widthStep` data
bytes (a size that fits the `int` field `imageSize`), the transfer returns a
`[3, width, height]` array in which the byte at
`(i * width + x) * 3 + c` is the source byte at
`(height - 1 - i) * widthStep + 3 * x + (2 - c)`; read the other way round,
every byte `k < 3 * width` of every source row `r` is found again in the
output, in row `height - 1 - r` with R and B exchanged.  The 2 x 2 frame of
stride 6 with rows `[B0,G0,R0,B1,G1,R1]`, `[B2,G2,R2,B3,G3,R3]` gives
`[R2,G2,B2,R3,G3,B3,R0,G0,B0,R1,G1,B1]`. -/
theorem colour_rgb_flipped (f : IplImage) (ini : Nat → UCHAR)
    (hC : f.nChannels = 3) (hS : 3 * f.width ≤ f.widthStep)
    (hlen : f.height * f.widthStep ≤ f.imageData.length)
    (hint : f.imageData.length < 2147483648) :
    (∃ m, idlvideo_read_transfer f 0 ini = some ([3, f.width, f.height], m) ∧
      m.out.length = 3 * f.width * f.height ∧
      (∀ i x c : Nat, i < f.height → x < f.width → c < 3 →
        ∃ v, f.imageData[(f.height - 1 - i) * f.widthStep + 3 * x + (2 - c)]? = some v ∧
          m.out[(i * f.width + x) * 3 + c]? = some v) ∧
      (∀ r k : Nat, r < f.height → k < 3 * f.width →
        ∃ v, f.imageData[r * f.widthStep + k]? = some v ∧
          m.out[((f.height - 1 - r) * f.width + k / 3) * 3 + (2 - k % 3)]? = some v)) ∧
    (∀ (b0 g0 r0 b1 g1 r1 b2 g2 r2 b3 g3 r3 : UCHAR) (ini' : Nat → UCHAR),
      (idlvideo_read_transfer
          ⟨3, 2, 2, 6, [b0, g0, r0, b1, g1, r1, b2, g2, r2, b3, g3, r3]⟩ 0 ini').map
        (fun t => (t.1, t.2.out)) =
      some ([3, 2, 2], [r2, g2, b2, r3, g3, b3, r0, g0, b0, r1, g1, b1])) := by
  have main : ∀ (f : IplImage) (ini : Nat → UCHAR), f.nChannels = 3 →
      3 * f.width ≤ f.widthStep → f.height * f.widthStep ≤ f.imageData.length →
      f.imageData.length < 2147483648 →
      ∃ m, idlvideo_read_transfer f 0 ini = some ([3, f.width, f.height], m) ∧
        m.out.length = 3 * f.width * f.height ∧
        (∀ i x c : Nat, i < f.height → x < f.width → c < 3 →
          ∃ v, f.imageData[(f.height - 1 - i) * f.widthStep + 3 * x + (2 - c)]? = some v ∧
            m.out[(i * f.width + x) * 3 + c]? = some v) ∧
        (∀ r k : Nat, r < f.height → k < 3 * f.width →
          ∃ v, f.imageData[r * f.widthStep + k]? = some v ∧
            m.out[((f.height - 1 - r) * f.width + k / 3) * 3 + (2 - k % 3)]? = some v) := by
    intro f ini hC hS hlen hint
    obtain ⟨m, hrun, hw, hr, hv⟩ := colour_run f ini f.imageData.length hC
      hlen hint (by omega) (le_refl _)
    refine ⟨m, hrun, ?_, ?_, ?_⟩
    · rw [(start_logs _ ini m _ _ hw hr).1]; simp [Nat.mul_assoc]
    · intro i x c hi hx hc
      obtain ⟨b, g, r, h0, h1, h2, o0, o1, o2⟩ :=
        hv i (f.height - 1 - i) x _ _ (by omega) hx rfl rfl
      interval_cases c
      · exact ⟨r, (idx_congr _ (by omega)).trans h2, (idx_congr _ (by omega)).trans o0⟩
      · exact ⟨g, (idx_congr _ (by omega)).trans h1, (idx_congr _ (by omega)).trans o1⟩
      · exact ⟨b, (idx_congr _ (by omega)).trans h0, (idx_congr _ (by omega)).trans o2⟩
    · intro r k hr' hk
      obtain ⟨b, g, r', h0, h1, h2, o0, o1, o2⟩ :=
        hv (f.height - 1 - r) r (k / 3) _ _ (by omega) (by omega) rfl rfl
      have hk3 : k % 3 = 0 ∨ k % 3 = 1 ∨ k % 3 = 2 := by omega
      rcases hk3 with h | h | h
      · exact ⟨b, (idx_congr _ (by omega)).trans h0, (idx_congr _ (by omega)).trans o2⟩
      · exact ⟨g, (idx_congr _ (by omega)).trans h1, (idx_congr _ (by omega)).trans o1⟩
      · exact ⟨r', (idx_congr _ (by omega)).trans h2, (idx_congr _ (by omega)).trans o0⟩
  refine ⟨main f ini hC hS hlen hint, ?_⟩
  intro b0 g0 r0 b1 g1 r1 b2 g2 r2 b3 g3 r3 ini'
  obtain ⟨m, hrun, hl, hpix, _⟩ :=
    main ⟨3, 2, 2, 6, [b0, g0, r0, b1, g1, r1, b2, g2, r2, b3, g3, r3]⟩ ini' rfl
      (by simp) (by simp) (by simp)
  have hout : m.out = [r2, g2, b2, r3, g3, b3, r0, g0, b0, r1, g1, b1] := by
    apply List.ext_getElem?
    intro n
    by_cases hn : n < 12
    · interval_cases n
      · obtain ⟨v, h1, h2⟩ := hpix 0 0 0 (by simp) (by simp) (by simp)
        simp at h1
        subst h1
        simpa using h2
      · obtain ⟨v, h1, h2⟩ := hpix 0 0 1 (by simp) (by simp) (by simp)
        simp at h1
        subst h1
        simpa using h2
      · obtain ⟨v, h1, h2⟩ := hpix 0 0 2 (by simp) (by simp) (by simp)
        simp at h1
        subst h1
        simpa using h2
      · obtain ⟨v, h1, h2⟩ := hpix 0 1 0 (by simp) (by simp) (by simp)
        simp at h1
        subst h1
        simpa using h2
      · obtain ⟨v, h1, h2⟩ := hpix 0 1 1 (by simp) (by simp) (by simp)
        simp at h1
        subst h1
        simpa using h2
      · obtain ⟨v, h1, h2⟩ := hpix 0 1 2 (by simp) (by simp) (by simp)
        simp at h1
        subst h1
        simpa using h2
      · obtain ⟨v, h1, h2⟩ := hpix 1 0 0 (by simp) (by simp) (by simp)
        simp at h1
        subst h1
        simpa using h2
      · obtain ⟨v, h1, h2⟩ := hpix 1 0 1 (by simp) (by simp) (by simp)
        simp at h1
        subst h1
        simpa using h2
      · obtain ⟨v, h1, h2⟩ := hpix 1 0 2 (by simp) (by simp) (by simp)
        simp at h1
        subst h1
        simpa using h2
      · obtain ⟨v, h1, h2⟩ := hpix 1 1 0 (by simp) (by simp) (by simp)
        simp at h1
        subst h1
        simpa using h2
      · obtain ⟨v, h1, h2⟩ := hpix 1 1 1 (by simp) (by simp) (by simp)
        simp at h1
        subst h1
        simpa using h2
      · obtain ⟨v, h1, h2⟩ := hpix 1 1 2 (by simp) (by simp) (by simp)
        simp at h1
        subst h1
        simpa using h2
    · have hl' : m.out.length = 12 := hl
      rw [List.getElem?_eq_none (by omega), List.getElem?_eq_none (by simp; omega)]
  rw [hrun, ← hout]
  rfl

/-- Witness of C3: the 2 x 2 frame of stride 6. -/
theorem colour_rgb_flipped_witness :
    (∃ m, idlvideo_read_transfer
        ⟨3, 2, 2, 6, [10, 11, 12, 13, 14, 15, 20, 21, 22, 23, 24, 25]⟩ 0 (fun _ => 0) =
          some ([3, 2, 2], m) ∧
      m.out.length = 3 * 2 * 2 ∧
      (∀ i x c : Nat, i < 2 → x < 2 → c < 3 →
        ∃ v, ([10, 11, 12, 13, 14, 15, 20, 21, 22, 23, 24, 25] : List UCHAR)[
            (2 - 1 - i) * 6 + 3 * x + (2 - c)]? = some v ∧
          m.out[(i * 2 + x) * 3 + c]? = some v) ∧
      (∀ r k : Nat, r < 2 → k < 3 * 2 →
        ∃ v, ([10, 11, 12, 13, 14, 15, 20, 21, 22, 23, 24, 25] : List UCHAR)[r * 6 + k]? =
            some v ∧
          m.out[((2 - 1 - r) * 2 + k / 3) * 3 + (2 - k % 3)]? = some v)) ∧
    (idlvideo_read_transfer
        ⟨3, 2, 2, 6, [10, 11, 12, 13, 14, 15, 20, 21, 22, 23, 24, 25]⟩ 0 (fun _ => 0)).map
      (fun t => (t.1, t.2.out)) =
    some ([3, 2, 2], [22, 21, 20, 25, 24, 23, 12, 11, 10, 15, 14, 13]) :=
  ⟨(colour_rgb_flipped ⟨3, 2, 2, 6, [10, 11, 12, 13, 14, 15, 20, 21, 22, 23, 24, 25]⟩
      (fun _ => 0) rfl (by decide) (by decide) (by decide)).1,
   (colour_rgb_flipped ⟨3, 2, 2, 6, [10, 11, 12, 13, 14, 15, 20, 21, 22, 23, 24, 25]⟩
      (fun _ => 0) rfl (by decide) (by decide) (by decide)).2
      10 11 12 13 14 15 20 21 22 23 24 25 (fun _ => 0)⟩

/-- C4. Stride-padding independence: in each of the three transfer modes, two
frames with the same width, height, channel count and a stride larger than
`width * nChannels` that agree on every non-padding byte (offsets
`r * widthStep + k` with `r < height`, `k < width * nChannels`) give the same
output array, whatever the fresh arrays held before.  Both frames hold at least
`height * widthStep` data bytes, a size that fits the `int` field `imageSize`. -/
theorem stride_padding_independence (f : IplImage) (d2 : List UCHAR) (gray : Int)
    (ini1 ini2 : Nat → UCHAR)
    (hC : f.nChannels = 1 ∨ f.nChannels = 3)
    (hS : f.width * f.nChannels < f.widthStep)
    (hlen1 : f.height * f.widthStep ≤ f.imageData.length)
    (hint1 : f.imageData.length < 2147483648)
    (hlen2 : f.height * f.widthStep ≤ d2.length) (hint2 : d2.length < 2147483648)
    (hagree : ∀ r k : Nat, r < f.height → k < f.width * f.nChannels →
      f.imageData[r * f.widthStep + k]? = d2[r * f.widthStep + k]?) :
    ∃ dims m1 m2, idlvideo_read_transfer f gray ini1 = some (dims, m1) ∧
      idlvideo_read_transfer { f with imageData := d2 } gray ini2 = some (dims, m2) ∧
      m1.out = m2.out := by
  rcases hC with hC | hC
  · rw [hC] at hS hagree
    obtain ⟨m1, m2, h1, h2, h⟩ := native_gray_padding f d2 gray ini1 ini2 hC (by omega)
      hlen1 hint1 hlen2 hint2 (fun r k hr hk => hagree r k hr (by omega))
    exact ⟨_, m1, m2, h1, h2, h⟩
  · rw [hC] at hS hagree
    by_cases hg : gray = 0
    · subst hg
      obtain ⟨m1, m2, h1, h2, h⟩ := colour_padding f d2 ini1 ini2 hC (by omega)
        hlen1 hint1 hlen2 hint2 (fun r k hr hk => hagree r k hr (by omega))
      exact ⟨_, m1, m2, h1, h2, h⟩
    · obtain ⟨m1, m2, h1, h2, h⟩ := gray_from_colour_padding f d2 gray ini1 ini2 hC hg
        (by omega) hlen1 hint1 hlen2 hint2 (fun r k hr hk => hagree r k hr (by omega))
      exact ⟨_, m1, m2, h1, h2, h⟩

/-- Witness of C4: a 1 x 2 three-channel frame of stride 4 whose two padding
bytes are changed from 9 to 200 and 77. -/
theorem stride_padding_independence_witness :
    ∃ dims m1 m2,
      idlvideo_read_transfer ⟨3, 1, 2, 4, [1, 2, 3, 9, 4, 5, 6, 9]⟩ 0 (fun _ => 0) =
        some (dims, m1) ∧
      idlvideo_read_transfer
        { (⟨3, 1, 2, 4, [1, 2, 3, 9, 4, 5, 6, 9]⟩ : IplImage) with
          imageData := [1, 2, 3, 200, 4, 5, 6, 77] } 0 (fun _ => 255) = some (dims, m2) ∧
      m1.out = m2.out :=
  stride_padding_independence ⟨3, 1, 2, 4, [1, 2, 3, 9, 4, 5, 6, 9]⟩
    [1, 2, 3, 200, 4, 5, 6, 77] 0 (fun _ => 0) (fun _ => 255)
    (Or.inr rfl) (by decide) (by decide) (by decide) (by decide) (by decide)
    (by
      intro r k hr hk
      have hr2 : r < 2 := hr
      have hk3 : k < 3 := hk
      interval_cases r <;> interval_cases k <;> rfl)

/-- C8. Empty frames: for a frame of width 0 or height 0, with any channel count
and any gray flag, the transfer succeeds, the array it returns has no element,
no source byte is read and no output byte is written; `idlvideo_read` called
with a valid handle that yields such a frame returns that empty array. -/
theorem empty_frame_transfer (f : IplImage) (ini : Nat → UCHAR)
    (h : f.width = 0 ∨ f.height = 0) :
    (∀ gray : Int, ∃ dims m, idlvideo_read_transfer f gray ini = some (dims, m) ∧
      dims.prod = 0 ∧ m.out = [] ∧ m.reads = [] ∧ m.writes = []) ∧
    (∀ (argv0 : IDL_Variable) (argv1 : Option Int) (cvQueryFrame : Nat → Option IplImage)
      (capture : Nat), idlvideo__capture argv0 = .ok capture →
      cvQueryFrame capture = some f →
      ∃ dims, dims.prod = 0 ∧
        idlvideo_read argv0 argv1 cvQueryFrame ini = .ok { dims := dims, data := [] }) := by
  have hp2 : [f.width, f.height].prod = 0 := by
    rcases h with h | h <;> simp [h]
  have hp3 : [f.nChannels, f.width, f.height].prod = 0 := by
    rcases h with h | h <;> simp [h]
  have main : ∀ gray : Int, ∃ dims m, idlvideo_read_transfer f gray ini = some (dims, m) ∧
      dims.prod = 0 ∧ m.out = [] ∧ m.reads = [] ∧ m.writes = [] := by
    intro gray
    unfold idlvideo_read_transfer
    by_cases hC : f.nChannels = 1
    · simp only [hC, if_true]
      obtain ⟨m', hrun, ho, hr, hw⟩ := (empty_rows f h
        { start [f.width, f.height] ini with
          image := (start [f.width, f.height] ini).image +
            wrapInt (wrapInt ((f.height : Int) - 1) * (f.width : Int)) }).1
      refine ⟨_, m', by rw [hrun]; rfl, hp2, ?_, hr, hw⟩
      rw [ho]
      exact empty_array _ ini hp2
    · by_cases hg : gray = 0
      · simp only [hC, if_false, hg, ne_eq, not_true_eq_false]
        obtain ⟨m', hrun, ho, hr, hw⟩ := (empty_rows f h
          { start [f.nChannels, f.width, f.height] ini with
            buffer := (start [f.nChannels, f.width, f.height] ini).buffer +
              wrapInt (wrapInt ((f.height : Int) - 1) * (f.widthStep : Int)) }).2.2
        refine ⟨_, m', by rw [hrun]; rfl, hp3, ?_, hr, hw⟩
        rw [ho]
        exact empty_array _ ini hp3
      · simp only [hC, if_false, hg, ne_eq, not_false_eq_true, if_true]
        obtain ⟨m', hrun, ho, hr, hw⟩ := (empty_rows f h
          { start [f.width, f.height] ini with
            buffer := (start [f.width, f.height] ini).buffer +
              wrapInt (wrapInt ((f.height : Int) - 1) * (f.widthStep : Int)) }).2.1
        refine ⟨_, m', by rw [hrun]; rfl, hp2, ?_, hr, hw⟩
        rw [ho]
        exact empty_array _ ini hp2
  refine ⟨main, ?_⟩
  intro argv0 argv1 cvQueryFrame capture hcap hframe
  unfold idlvideo_read
  rw [hcap]
  simp only [hframe]
  obtain ⟨dims, m, hrun, hp, ho, _, _⟩ := main (match argv1 with
    | some v => v
    | none => 0)
  refine ⟨dims, hp, ?_⟩
  rw [hrun]
  show Outcome.ok (IDL_Array.mk dims m.out) = _
  rw [ho]

/-- Witness of C8: a three-channel frame of width 0 and height 4, converted to
gray. -/
theorem empty_frame_transfer_witness :
    ∃ dims m,
      idlvideo_read_transfer ⟨3, 0, 4, 8, []⟩ 1 (fun _ => 0) = some (dims, m) ∧
      dims.prod = 0 ∧ m.out = [] ∧ m.reads = [] ∧ m.writes = [] :=
  (empty_frame_transfer ⟨3, 0, 4, 8, []⟩ (fun _ => 0) (Or.inl rfl)).1 1

/-- C9. In-bounds pointer walk: for a frame with 1 or 3 channels, height at
least 1 (and any width, so also every width at least 1), stride at least
`width * nChannels` and at least `height * widthStep` data bytes, whose size
fits the `int` field `imageSize`, in each transfer mode the transfer runs to
its end without an access outside an array, every source offset read lies in
`[0, (height - 1) * widthStep + width * nChannels)`, every output offset
written lies in `[0, N)` with `N` the product of the dimensions of the array
(`[width, height]` for the two gray modes, `[3, width, height]` for colour),
and every offset in `[0, N)` is written exactly once. -/
theorem pointer_walk_in_bounds (f : IplImage) (gray : Int) (ini : Nat → UCHAR)
    (hC : f.nChannels = 1 ∨ f.nChannels = 3) (hH : 1 ≤ f.height)
    (hS : f.width * f.nChannels ≤ f.widthStep)
    (hlen : f.height * f.widthStep ≤ f.imageData.length)
    (hint : f.imageData.length < 2147483648) :
    ∃ dims m, idlvideo_read_transfer f gray ini = some (dims, m) ∧
      dims = (if f.nChannels = 1 ∨ gray ≠ 0 then [f.width, f.height]
        else [3, f.width, f.height]) ∧
      m.out.length = dims.prod ∧
      (∀ z : Int, z ∈ m.reads → 0 ≤ z ∧
        z < (((f.height - 1) * f.widthStep + f.width * f.nChannels : Nat) : Int)) ∧
      (∀ z : Int, z ∈ m.writes → 0 ≤ z ∧ z < (dims.prod : Int)) ∧
      (∀ k : Nat, k < dims.prod → m.writes.count (k : Int) = 1) := by
  obtain ⟨h, hh⟩ : ∃ h, f.height = h + 1 := ⟨f.height - 1, by omega⟩
  have e1 : (h + 1) * f.widthStep = h * f.widthStep + f.widthStep := Nat.succ_mul _ _
  have e2 : f.height - 1 = h := by omega
  rw [e2]
  rw [hh] at hlen
  rcases hC with hC | hC
  · rw [hC] at hS ⊢
    obtain ⟨m, hrun, hw, hr, _⟩ := native_gray_run f gray ini
      (h * f.widthStep + f.width * 1) hC (by omega) (by rw [hh]; exact hlen) hint
      (by rw [hh]; omega) (by omega)
    obtain ⟨hl, hrd, hwr, hct⟩ := start_logs _ ini m _ _ hw hr
    have hN : [f.width, f.height].prod = f.height * f.width := by simp [Nat.mul_comm]
    refine ⟨_, m, hrun, by simp, hl, hrd, ?_, ?_⟩
    · rw [hN]; exact hwr
    · rw [hN]; exact hct
  · rw [hC] at hS ⊢
    by_cases hg : gray = 0
    · subst hg
      obtain ⟨m, hrun, hw, hr, _⟩ := colour_run f ini
        (h * f.widthStep + f.width * 3) hC (by rw [hh]; exact hlen) hint
        (by rw [hh]; omega) (by omega)
      obtain ⟨hl, hrd, hwr, hct⟩ := start_logs _ ini m _ _ hw hr
      have hN : [3, f.width, f.height].prod = 3 * (f.height * f.width) := by
        simp [Nat.mul_comm]
      refine ⟨_, m, hrun, by simp, hl, hrd, ?_, ?_⟩
      · rw [hN]; exact hwr
      · rw [hN]; exact hct
    · obtain ⟨m, hrun, hw, hr, _⟩ := gray_from_colour_run f gray ini
        (h * f.widthStep + f.width * 3) hC hg (by rw [hh]; exact hlen) hint
        (by rw [hh]; omega) (by omega)
      obtain ⟨hl, hrd, hwr, hct⟩ := start_logs _ ini m _ _ hw hr
      have hN : [f.width, f.height].prod = f.height * f.width := by simp [Nat.mul_comm]
      refine ⟨_, m, hrun, by simp [hg], hl, hrd, ?_, ?_⟩
      · rw [hN]; exact hwr
      · rw [hN]; exact hct

/-- Witness of C9: a 2 x 2 three-channel frame of stride 8 in colour mode. -/
theorem pointer_walk_in_bounds_witness :
    ∃ dims m,
      idlvideo_read_transfer
        ⟨3, 2, 2, 8, [1, 2, 3, 4, 5, 6, 0, 0, 7, 8, 9, 10, 11, 12, 0, 0]⟩ 0 (fun _ => 0) =
        some (dims, m) ∧
      dims = (if (3 : Nat) = 1 ∨ (0 : Int) ≠ 0 then [2, 2] else [3, 2, 2]) ∧
      m.out.length = dims.prod ∧
      (∀ z : Int, z ∈ m.reads → 0 ≤ z ∧ z < (((2 - 1) * 8 + 2 * 3 : Nat) : Int)) ∧
      (∀ z : Int, z ∈ m.writes → 0 ≤ z ∧ z < (dims.prod : Int)) ∧
      (∀ k : Nat, k < dims.prod → m.writes.count (k : Int) = 1) :=
  pointer_walk_in_bounds ⟨3, 2, 2, 8, [1, 2, 3, 4, 5, 6, 0, 0, 7, 8, 9, 10, 11, 12, 0, 0]⟩ 0
    (fun _ => 0) (Or.inr rfl) (by decide) (by decide) (by decide) (by decide)

/-! ## The claims about handles -/

/-- C5. Handle validation: for a well-formed handle record (a structure with at
least two tags, a `CAPTURE` tag, a data area at a non-null address and a
readable payload word), `idlvideo__capture` ends with the message "Not a valid
camera." when the structure name differs from "idlvideo_capture", and this
whatever the memory holds or whether it can be read at all, so the payload is
not read; when the name matches it returns exactly the stored payload. -/
theorem capture_validation (sdef : IDL_StructDef) (data : Nat) (mem : Nat → Option Nat)
    (off payload : Nat)
    (htags : 2 ≤ sdef.tags.length)
    (hcap : IDL_StructTagInfoByName sdef "CAPTURE" = some off)
    (hdata : data ≠ 0)
    (hmem : mem (data + off) = some payload) :
    (sdef.name ≠ IDLVIDEO → ∀ mem' : Nat → Option Nat,
      idlvideo__capture (.struct sdef data mem') = .message "Not a valid camera.") ∧
    (sdef.name = IDLVIDEO →
      idlvideo__capture (.struct sdef data mem) = .ok payload) := by
  have h1 : ¬ sdef.tags.length ≤ 1 := by omega
  constructor
  · intro hname mem'
    simp [idlvideo__capture, h1, hname]
  · intro hname
    have h2 : data + off ≠ 0 := by omega
    simp [idlvideo__capture, h1, hname, hcap, h2, hmem]

/-- Witness of C5: the record made by `idlvideo_CaptureFromCAM` (tags `CAMERA`
at offset 0 and `CAPTURE` at offset 8) holding the payload 140737, and the
same record under another structure name. -/
theorem capture_validation_witness :
    idlvideo__capture (.struct ⟨"idlvideo_capture", [("CAMERA", 0), ("CAPTURE", 8)]⟩ 4096
      (fun a => if a = 4104 then some 140737 else none)) = .ok 140737 ∧
    ∀ mem' : Nat → Option Nat,
      idlvideo__capture (.struct ⟨"other", [("CAMERA", 0), ("CAPTURE", 8)]⟩ 4096 mem') =
        .message "Not a valid camera." :=
  ⟨(capture_validation ⟨"idlvideo_capture", [("CAMERA", 0), ("CAPTURE", 8)]⟩ 4096
      (fun a => if a = 4104 then some 140737 else none) 8 140737
      (by decide) (by decide) (by decide) (by decide)).2 (by decide),
   (capture_validation ⟨"other", [("CAMERA", 0), ("CAPTURE", 8)]⟩ 4096
      (fun a => if a = 4104 then some 140737 else none) 8 140737
      (by decide) (by decide) (by decide) (by decide)).1 (by decide)⟩

/-- C7, as the claim states it, fails: the handle record with the right
structure name whose stored capture pointer is zero is accepted, and the zero
payload is returned to the caller; no message is issued. -/
theorem zero_payload_is_returned :
    idlvideo__capture (.struct ⟨"idlvideo_capture", [("CAMERA", 0), ("CAPTURE", 8)]⟩ 4096
      (fun a => if a = 4104 then some 0 else none)) = .ok 0 ∧
    idlvideo__capture (.struct ⟨"idlvideo_capture", [("CAMERA", 0), ("CAPTURE", 8)]⟩ 4096
      (fun a => if a = 4104 then some 0 else none)) ≠
      .message "Could not access camera data." := by
  decide

/-- C7, amended: for a handle record whose structure name matches and whose
stored capture pointer is zero, `idlvideo__capture` returns the zero payload
whenever the address of the `CAPTURE` field is not null; the message
"Could not access camera data." is issued exactly when that address, not the
value stored there, is null. -/
theorem zero_payload_amended (sdef : IDL_StructDef) (data : Nat) (mem : Nat → Option Nat)
    (off : Nat)
    (htags : 2 ≤ sdef.tags.length)
    (hname : sdef.name = IDLVIDEO)
    (hcap : IDL_StructTagInfoByName sdef "CAPTURE" = some off)
    (hmem : mem (data + off) = some 0) :
    (data + off ≠ 0 → idlvideo__capture (.struct sdef data mem) = .ok 0) ∧
    (idlvideo__capture (.struct sdef data mem) = .message "Could not access camera data." ↔
      data + off = 0) := by
  have h1 : ¬ sdef.tags.length ≤ 1 := by omega
  by_cases h2 : data + off = 0
  · simp [idlvideo__capture, h1, hname, hcap, h2]
  · simp [idlvideo__capture, h1, hname, hcap, h2, hmem]

/-- Witness of C7 amended: the record with a zero capture pointer. -/
theorem zero_payload_amended_witness :
    ((4096 : Nat) + 8 ≠ 0 →
      idlvideo__capture (.struct ⟨"idlvideo_capture", [("CAMERA", 0), ("CAPTURE", 8)]⟩ 4096
        (fun a => if a = 4104 then some 0 else none)) = .ok 0) ∧
    (idlvideo__capture (.struct ⟨"idlvideo_capture", [("CAMERA", 0), ("CAPTURE", 8)]⟩ 4096
        (fun a => if a = 4104 then some 0 else none)) =
        .message "Could not access camera data." ↔ (4096 : Nat) + 8 = 0) :=
  zero_payload_amended ⟨"idlvideo_capture", [("CAMERA", 0), ("CAPTURE", 8)]⟩ 4096
    (fun a => if a = 4104 then some 0 else none) 8 (by decide) (by decide) (by decide)
    (by decide)

/-- C6: with a valid handle and a frame pull that yields no frame,
`idlvideo_read` goes on to read `frame->imageData` through the null pointer:
the call ends in a fault, not in a message, and no array is returned. -/
theorem read_without_frame_faults :
    idlvideo_read (.struct ⟨"idlvideo_capture", [("CAMERA", 0), ("CAPTURE", 8)]⟩ 4096
      (fun a => if a = 4104 then some 140737 else none)) none (fun _ => none) (fun _ => 0) =
      .fault ∧
    ∀ text : String,
      idlvideo_read (.struct ⟨"idlvideo_capture", [("CAMERA", 0), ("CAPTURE", 8)]⟩ 4096
        (fun a => if a = 4104 then some 140737 else none)) none (fun _ => none) (fun _ => 0) ≠
      .message text := by
  have h : idlvideo_read (.struct ⟨"idlvideo_capture", [("CAMERA", 0), ("CAPTURE", 8)]⟩ 4096
      (fun a => if a = 4104 then some 140737 else none)) none (fun _ => none) (fun _ => 0) =
      .fault := by decide
  refine ⟨h, fun text => ?_⟩
  rw [h]
  exact fun hc => Outcome.noConfusion hc

end IdlVideo
